import Mathlib

/-!
# Verification of the audit-proxy data plane

A shallow embedding of the core of the `kdhira/audit-proxy` repository:
the bounded excerpt buffer and tee reader (`internal/audit`), the header
sanitiser (`internal/audit`), the filter chain (`internal/proxy/filters.go`),
the request forwarder and CONNECT handler (`internal/proxy`), the MITM
request processor (`internal/proxy`), and the leaf-certificate cache
(`internal/mitm`).

Go strings are modelled as `List Char` (byte-level operations of the source
coincide with character-level operations on the ASCII/Latin-1 fragment that
HTTP header values inhabit).  Go `int`/`int64` are modelled as `Int` where
negative values are meaningful (content lengths, buffer limits) and as `Nat`
otherwise.  Fallible operations return `Except` or `Option`.  Nondeterminism
of the environment (the upstream transport, the profile registry, socket
operations) is passed in as explicit oracle functions.
-/

/-- Go strings, modelled as character lists. -/
abbrev Str := List Char

/-! ## Bounded buffer and tee (internal/audit, LimitedBuffer / TeeReadCloser) -/

/-- `LimitedBuffer` from `internal/audit`: a byte accumulator with a limit.
Bytes are modelled as `Nat`. -/
structure LimitedBuffer where
  data : List Nat
  limit : Int
  deriving Repr, DecidableEq

/-- `LimitedBuffer.Write`: if the limit is non-positive the write is a no-op on
storage; otherwise up to `limit - len(data)` bytes of `p` are appended.  The
returned count is always the full input length. -/
def limitedWrite (b : LimitedBuffer) (p : List Nat) : Nat × LimitedBuffer :=
  if b.limit ≤ 0 then (p.length, b)
  else if 0 < b.limit - (b.data.length : Int) then
    (p.length, { b with data := b.data ++ p.take (b.limit - (b.data.length : Int)).toNat })
  else
    (p.length, b)

/-- `LimitedBuffer.Len`. -/
def limitedLen (b : LimitedBuffer) : Nat := b.data.length

/-- `LimitedBuffer.Reset`: clears storage; a non-negative argument updates the
limit. -/
def limitedReset (b : LimitedBuffer) (limit : Int) : LimitedBuffer :=
  { data := [], limit := if 0 ≤ limit then limit else b.limit }

/-- A freshly constructed buffer (`NewLimitedBuffer`). -/
def mkBuffer (limit : Int) : LimitedBuffer := { data := [], limit := limit }

/-- One `TeeReadCloser.Read` step: the source delivered `chunk`; when `n > 0`
the same bytes are written into the buffer; downstream receives `chunk`
unchanged. -/
def teeRead (buf : LimitedBuffer) (chunk : List Nat) : List Nat × LimitedBuffer :=
  if 0 < chunk.length then (chunk, (limitedWrite buf chunk).2) else (chunk, buf)

/-- Reading a whole stream (list of read chunks) through the tee: the
concatenated downstream bytes together with the final buffer state. -/
def teeRunAll : List (List Nat) → LimitedBuffer → List Nat × LimitedBuffer
  | [], buf => ([], buf)
  | c :: cs, buf =>
    ((teeRead buf c).1 ++ (teeRunAll cs (teeRead buf c).2).1,
      (teeRunAll cs (teeRead buf c).2).2)

theorem limitedWrite_fst (b : LimitedBuffer) (p : List Nat) :
    (limitedWrite b p).1 = p.length := by
  unfold limitedWrite
  split_ifs <;> rfl

theorem limitedWrite_nonpos (b : LimitedBuffer) (p : List Nat) (h : b.limit ≤ 0) :
    (limitedWrite b p).2 = b := by
  unfold limitedWrite
  simp [h]

theorem limitedWrite_pos (d : List Nat) (L : Nat) (p : List Nat)
    (hL : 0 < L) (hd : d.length ≤ L) :
    (limitedWrite ⟨d, (L : Int)⟩ p).2 = ⟨(d ++ p).take L, (L : Int)⟩ := by
  unfold limitedWrite
  have hnot : ¬ ((L : Int) ≤ 0) := by exact_mod_cast Nat.not_le.mpr hL
  simp only [hnot, if_false]
  by_cases hrem : 0 < (L : Int) - (d.length : Int)
  · simp only [hrem, if_true]
    have hlt : d.length < L := by exact_mod_cast Int.lt_of_sub_pos hrem
    have htoNat : ((L : Int) - (d.length : Int)).toNat = L - d.length := by
      omega
    have htake : (d ++ p).take L = d ++ p.take (L - d.length) := by
      rw [List.take_append_eq_append_take]
      rw [List.take_of_length_le (Nat.le_of_lt hlt)]
    simp [htoNat, htake]
  · simp only [hrem, if_false]
    have heq : d.length = L := by omega
    have : (d ++ p).take L = d := by
      rw [List.take_append_eq_append_take]
      simp [heq]
    simp [this]

theorem teeRunAll_nonpos (chunks : List (List Nat)) (b : LimitedBuffer)
    (h : b.limit ≤ 0) :
    teeRunAll chunks b = (chunks.flatten, b) := by
  induction chunks with
  | nil => simp [teeRunAll]
  | cons c cs ih =>
    unfold teeRunAll teeRead
    split
    · simp [limitedWrite_nonpos _ _ h, ih]
    · simp [ih]

theorem teeRead_pos (d : List Nat) (L : Nat) (c : List Nat)
    (hL : 0 < L) (hd : d.length ≤ L) :
    teeRead ⟨d, (L : Int)⟩ c = (c, ⟨(d ++ c).take L, (L : Int)⟩) := by
  unfold teeRead
  by_cases hc : 0 < c.length
  · simp only [hc, if_true]
    rw [limitedWrite_pos d L c hL hd]
  · have hce : c = [] := by
      cases c with
      | nil => rfl
      | cons x xs => simp at hc
    subst hce
    rw [List.append_nil, List.take_of_length_le hd]
    simp

theorem take_absorb_append (d c rest : List Nat) (L : Nat) :
    ((d ++ c).take L ++ rest).take L = (d ++ (c ++ rest)).take L := by
  rw [List.take_append_eq_append_take]
  have h1 : ((d ++ c).take L).take L = (d ++ c).take L := by
    simp [List.take_take]
  rw [h1, ← List.append_assoc]
  rw [@List.take_append_eq_append_take Nat (d ++ c) rest L]
  simp only [List.length_take, List.length_append]
  congr 1
  rcases Nat.le_total L (d.length + c.length) with h | h
  · rw [min_eq_left h, Nat.sub_self, Nat.sub_eq_zero_of_le h]
  · rw [min_eq_right h]

theorem teeRunAll_pos (chunks : List (List Nat)) (d : List Nat) (L : Nat)
    (hL : 0 < L) (hd : d.length ≤ L) :
    teeRunAll chunks ⟨d, (L : Int)⟩ =
      (chunks.flatten, ⟨(d ++ chunks.flatten).take L, (L : Int)⟩) := by
  induction chunks generalizing d with
  | nil =>
    simp [teeRunAll, List.take_of_length_le hd]
  | cons c cs ih =>
    unfold teeRunAll
    rw [teeRead_pos d L c hL hd]
    have hlen : ((d ++ c).take L).length ≤ L := by
      simp [List.length_take]
    rw [ih _ hlen]
    simp [take_absorb_append]

/-- C1 helper: `take` up to `min` of the length. -/
theorem take_min_length (l : List Nat) (L : Nat) :
    l.take (min l.length L) = l.take L := by
  rcases Nat.le_total l.length L with h | h
  · rw [Nat.min_eq_left h, List.take_of_length_le (Nat.le_refl _),
      List.take_of_length_le h]
  · rw [Nat.min_eq_right h]

/-- C1: for every byte stream read to completion through a tee whose buffer has
limit `L`, the downstream bytes equal the stream exactly, the buffer holds the
first `min (N, L)` bytes, and every `LimitedBuffer.Write` reports the full
input length as accepted. -/
theorem tee_stream_exact_and_excerpt_bounded (chunks : List (List Nat)) (L : Nat) :
    (teeRunAll chunks (mkBuffer (L : Int))).1 = chunks.flatten ∧
    (teeRunAll chunks (mkBuffer (L : Int))).2.data
      = chunks.flatten.take (min chunks.flatten.length L) ∧
    ∀ (b : LimitedBuffer) (p : List Nat), (limitedWrite b p).1 = p.length := by
  rw [take_min_length]
  refine ⟨?_, ?_, fun b p => limitedWrite_fst b p⟩ <;>
  · rcases Nat.eq_zero_or_pos L with hL | hL
    · subst hL
      have h0 := teeRunAll_nonpos chunks (mkBuffer 0) (by simp [mkBuffer])
      simp_all [mkBuffer]
    · have hp := teeRunAll_pos chunks [] L hL (by simp)
      simp_all [mkBuffer]

/-! ## Header sanitiser (internal/audit, SanitiseHeaders / maskToken) -/

/-- `unicode.IsSpace` restricted to the Latin-1 range (HTTP header values are
ASCII/Latin-1; `strings.TrimSpace` consults this predicate). -/
def goIsSpace (c : Char) : Bool :=
  c = ' ' || c = '\t' || c = '\n' || c = Char.ofNat 11 || c = Char.ofNat 12 ||
  c = '\r' || c = Char.ofNat 133 || c = Char.ofNat 160

/-- `strings.TrimSpace`. -/
def trimSpace (l : Str) : Str :=
  ((l.dropWhile goIsSpace).reverse.dropWhile goIsSpace).reverse

/-- A character other than the single space used by `strings.SplitN(v, " ", 2)`. -/
def notSpace (c : Char) : Bool := c != ' '

/-- `strings.SplitN(v, " ", 2)`: the part before the first space, and, when a
space occurs, the remainder after it. -/
def splitFirstSpace (l : Str) : Str × Option Str :=
  match l.dropWhile notSpace with
  | [] => (l.takeWhile notSpace, none)
  | _ :: rest => (l.takeWhile notSpace, some rest)

/-- `maskCore` from `internal/audit`: tokens of length at most 4 become `***`;
longer tokens keep their first two and last two characters. -/
def maskCore (l : Str) : Str :=
  if l.length ≤ 4 then ('*' :: '*' :: '*' :: [])
  else l.take 2 ++ ('*' :: '*' :: '*' :: []) ++ l.drop (l.length - 2)

/-- `maskToken` from `internal/audit`. -/
def maskToken (v : Str) : Str :=
  if trimSpace v = [] then []
  else
    match splitFirstSpace (trimSpace v) with
    | (p0, some p1) => p0 ++ ' ' :: maskCore p1
    | (_, none) => maskCore (trimSpace v)

/-- `strings.Join(parts, ", ")`. -/
def joinComma (parts : List Str) : Str :=
  List.intercalate (',' :: ' ' :: []) parts

/-- `redactValues` from `internal/audit`. -/
def redactValues (values : List Str) : Str :=
  if values = [] then [] else joinComma (values.map maskToken)

/-- The `sensitiveHeaders` set. -/
def sensitiveHeaders : List Str :=
  [("authorization").data, ("proxy-authorization").data, ("x-api-key").data,
   ("api-key").data, ("apikey").data, ("x-auth-token").data,
   ("x-openai-api-key").data, ("openai-organization").data]

/-- `strings.ToLower` (ASCII-adequate). -/
def lowerStr (l : Str) : Str := l.map Char.toLower

/-- The loop body of `SanitiseHeaders`: a sensitive key (matched on its
lowercase form) gets its values redacted, any other key gets its values joined
with `", "`. -/
def sanitiseEntry (kv : Str × List Str) : Str × Str :=
  if sensitiveHeaders.contains (lowerStr kv.1) then (kv.1, redactValues kv.2)
  else (kv.1, joinComma kv.2)

/-- `SanitiseHeaders` from `internal/audit`: a Go `http.Header` is modelled as
an association list from header name to value list; the `nil` result for an
empty map is modelled as `none`. -/
def sanitiseHeaders (h : List (Str × List Str)) : Option (List (Str × Str)) :=
  if h = [] then none
  else some (h.map sanitiseEntry)

example : maskToken (("Bearer secrettoken").data) = ("Bearer se***en").data := by decide
example : maskToken (("tok1").data) = ("***").data := by decide
example : maskToken ((" ").data) = [] := by decide
example : sanitiseHeaders [] = none := rfl
example :
    sanitiseHeaders [(("Authorization").data, [("Bearer abcdef").data])]
      = some [(("Authorization").data, ("Bearer ab***ef").data)] := by decide

/-! ### Facts about trimming, splitting and masking -/

theorem dropWhile_head_false {p : Char → Bool} {l : Str} {c : Char} {cs : Str}
    (h : l.dropWhile p = c :: cs) : p c = false := by
  induction l with
  | nil => simp [List.dropWhile] at h
  | cons a as ih =>
    by_cases hpa : p a
    · rw [List.dropWhile_cons_of_pos hpa] at h
      exact ih h
    · rw [List.dropWhile_cons_of_neg hpa] at h
      injection h with h1 h2
      subst h1
      simpa using hpa

theorem getLast?_dropWhile {p : Char → Bool} (l : Str)
    (h : l.dropWhile p ≠ []) : (l.dropWhile p).getLast? = l.getLast? := by
  induction l with
  | nil => simp [List.dropWhile] at h
  | cons a as ih =>
    by_cases hpa : p a
    · rw [List.dropWhile_cons_of_pos hpa] at h ⊢
      rw [ih h]
      have has : as ≠ [] := by
        intro he
        subst he
        simp [List.dropWhile] at h
      cases as with
      | nil => exact absurd rfl has
      | cons b bs => rw [List.getLast?_cons_cons]
    · rw [List.dropWhile_cons_of_neg hpa]

theorem mem_takeWhile_pred {p : Char → Bool} {l : Str} {c : Char}
    (h : c ∈ l.takeWhile p) : p c = true := by
  induction l with
  | nil => simp [List.takeWhile] at h
  | cons a as ih =>
    by_cases hpa : p a
    · rw [List.takeWhile_cons_of_pos hpa] at h
      rcases List.mem_cons.mp h with h1 | h2
      · subst h1; exact hpa
      · exact ih h2
    · rw [List.takeWhile_cons_of_neg hpa] at h
      simp at h

theorem trimSpace_getLast?_false (v : Str) {c : Char}
    (h : (trimSpace v).getLast? = some c) : goIsSpace c = false := by
  unfold trimSpace at h
  rw [List.getLast?_reverse] at h
  cases hdw : (v.dropWhile goIsSpace).reverse.dropWhile goIsSpace with
  | nil => rw [hdw] at h; simp at h
  | cons x xs =>
    rw [hdw] at h
    simp only [List.head?_cons, Option.some.injEq] at h
    subst h
    exact dropWhile_head_false hdw

theorem trimSpace_head?_false (v : Str) {c : Char}
    (h : (trimSpace v).head? = some c) : goIsSpace c = false := by
  unfold trimSpace at h
  rw [List.head?_reverse] at h
  cases hdw : (v.dropWhile goIsSpace).reverse.dropWhile goIsSpace with
  | nil => rw [hdw] at h; simp at h
  | cons x xs =>
    have hne : (v.dropWhile goIsSpace).reverse.dropWhile goIsSpace ≠ [] := by
      rw [hdw]; exact List.cons_ne_nil x xs
    rw [getLast?_dropWhile _ hne, List.getLast?_reverse] at h
    cases hm : v.dropWhile goIsSpace with
    | nil => rw [hm] at h; simp at h
    | cons y ys =>
      rw [hm] at h
      simp only [List.head?_cons, Option.some.injEq] at h
      subst h
      exact dropWhile_head_false hm

theorem trimSpace_eq_self {t : Str}
    (hh : ∀ c, t.head? = some c → goIsSpace c = false)
    (hl : ∀ c, t.getLast? = some c → goIsSpace c = false) :
    trimSpace t = t := by
  unfold trimSpace
  cases t with
  | nil => rfl
  | cons a as =>
    have h1 : goIsSpace a = false := hh a rfl
    rw [List.dropWhile_cons_of_neg (by simp [h1])]
    cases hrev : (a :: as).reverse with
    | nil => simp at hrev
    | cons b bs =>
      have hb : (a :: as).getLast? = some b := by
        rw [← List.head?_reverse, hrev]
        rfl
      have h2 : goIsSpace b = false := hl b hb
      rw [List.dropWhile_cons_of_neg (by simp [h2]), ← hrev, List.reverse_reverse]

theorem splitFirstSpace_no_space {l : Str} (h : ∀ c ∈ l, c ≠ ' ') :
    splitFirstSpace l = (l, none) := by
  unfold splitFirstSpace
  have hdw : l.dropWhile notSpace = [] := by
    rw [List.dropWhile_eq_nil_iff]
    intro x hx
    simp [notSpace, h x hx]
  have htw : l.takeWhile notSpace = l := by
    have h2 := List.takeWhile_append_dropWhile notSpace l
    rw [hdw, List.append_nil] at h2
    exact h2
  rw [hdw, htw]

theorem dropWhile_notSpace_append {p0 r : Str} (h : ∀ c ∈ p0, c ≠ ' ') :
    (p0 ++ ' ' :: r).dropWhile notSpace = ' ' :: r := by
  induction p0 with
  | nil => simp [List.dropWhile_cons_of_neg, notSpace]
  | cons a as ih =>
    have ha : notSpace a = true := by
      simp only [notSpace, bne_iff_ne, ne_eq, decide_eq_true_eq]
      exact h a (by simp)
    rw [List.cons_append, List.dropWhile_cons_of_pos ha]
    exact ih (fun c hc => h c (by simp [hc]))

theorem takeWhile_notSpace_append {p0 r : Str} (h : ∀ c ∈ p0, c ≠ ' ') :
    (p0 ++ ' ' :: r).takeWhile notSpace = p0 := by
  induction p0 with
  | nil => simp [List.takeWhile_cons_of_neg, notSpace]
  | cons a as ih =>
    have ha : notSpace a = true := by
      simp only [notSpace, bne_iff_ne, ne_eq, decide_eq_true_eq]
      exact h a (by simp)
    rw [List.cons_append, List.takeWhile_cons_of_pos ha]
    rw [ih (fun c hc => h c (by simp [hc]))]

theorem splitFirstSpace_append {p0 r : Str} (h : ∀ c ∈ p0, c ≠ ' ') :
    splitFirstSpace (p0 ++ ' ' :: r) = (p0, some r) := by
  unfold splitFirstSpace
  rw [dropWhile_notSpace_append h, takeWhile_notSpace_append h]

theorem maskCore_short {l : Str} (h : l.length ≤ 4) :
    maskCore l = ('*' :: '*' :: '*' :: []) := by
  unfold maskCore
  rw [if_pos h]

theorem maskCore_long_shape {a b : Char} {r : Str} {c d : Char} (hr : r ≠ []) :
    maskCore (a :: b :: (r ++ c :: d :: [])) =
      a :: b :: '*' :: '*' :: '*' :: c :: d :: [] := by
  have hrl : 0 < r.length := List.length_pos.mpr hr
  have hlen : (a :: b :: (r ++ c :: d :: [])).length = r.length + 4 := by
    simp only [List.length_cons, List.length_append, List.length_nil]
  unfold maskCore
  rw [if_neg (by rw [hlen]; omega)]
  rw [hlen]
  have htake : (a :: b :: (r ++ c :: d :: [])).take 2 = a :: b :: [] := rfl
  have hdrop : (a :: b :: (r ++ c :: d :: [])).drop (r.length + 4 - 2) = c :: d :: [] := by
    have : r.length + 4 - 2 = (r.length + 1) + 1 := by omega
    rw [this, List.drop_succ_cons, List.drop_succ_cons, List.drop_left]
  rw [htake, hdrop]
  rfl

theorem exists_long_decomp {l : Str} (h : ¬ l.length ≤ 4) :
    ∃ a b r c d, r ≠ [] ∧ l = a :: b :: (r ++ c :: d :: []) ∧
      l.head? = some a ∧ l.getLast? = some d := by
  cases l with
  | nil => simp at h
  | cons a l1 =>
    cases l1 with
    | nil => simp at h
    | cons b m =>
      have hm : 3 ≤ m.length := by
        simp only [List.length_cons, not_le] at h
        omega
      have hm0 : m ≠ [] := by
        intro he
        subst he
        simp at hm
      have hsplit1 : m.dropLast ++ (m.getLast hm0 :: []) = m :=
        List.dropLast_append_getLast hm0
      have hmlen : m.dropLast.length = m.length - 1 := List.length_dropLast m
      have hm1 : m.dropLast ≠ [] := by
        intro he
        rw [he] at hmlen
        simp at hmlen
        omega
      have hsplit2 : m.dropLast.dropLast ++ (m.dropLast.getLast hm1 :: []) = m.dropLast :=
        List.dropLast_append_getLast hm1
      refine ⟨a, b, m.dropLast.dropLast, m.dropLast.getLast hm1, m.getLast hm0, ?_, ?_, rfl, ?_⟩
      · intro he
        have h2 := congrArg List.length hsplit2
        rw [he] at h2
        simp at h2
        have h3 := List.length_dropLast m.dropLast
        omega
      · have hassoc : m.dropLast.dropLast ++ m.dropLast.getLast hm1 :: m.getLast hm0 :: []
            = (m.dropLast.dropLast ++ m.dropLast.getLast hm1 :: []) ++ m.getLast hm0 :: [] := by
          simp
        have hfull : m.dropLast.dropLast ++ m.dropLast.getLast hm1 :: m.getLast hm0 :: [] = m := by
          rw [hassoc, hsplit2, hsplit1]
        rw [hfull]
      · rw [List.getLast?_cons_cons]
        conv_lhs => rw [← hsplit1]
        rw [← List.cons_append,
          List.getLast?_append_of_ne_nil _ (List.cons_ne_nil _ _)]
        rfl

theorem maskCore_ne_nil (l : Str) : maskCore l ≠ [] := by
  unfold maskCore
  split_ifs <;> simp

theorem maskCore_maskCore (l : Str) : maskCore (maskCore l) = maskCore l := by
  by_cases h : l.length ≤ 4
  · rw [maskCore_short h]
    decide
  · obtain ⟨a, b, r, c, d, hr, hleq, -, -⟩ := exists_long_decomp h
    rw [hleq, maskCore_long_shape hr]
    exact @maskCore_long_shape a b ('*' :: '*' :: '*' :: []) c d (by simp)

theorem maskCore_getLast? (l : Str) :
    (maskCore l).getLast? = some '*' ∨ (maskCore l).getLast? = l.getLast? := by
  by_cases h : l.length ≤ 4
  · left
    rw [maskCore_short h]
    rfl
  · right
    obtain ⟨a, b, r, c, d, hr, hleq, -, hld⟩ := exists_long_decomp h
    rw [hleq] at hld
    rw [hleq, maskCore_long_shape hr, hld]
    rfl

theorem getLast?_cons_of_ne_nil {y : Char} {l : Str} (h : l ≠ []) :
    (y :: l).getLast? = l.getLast? := by
  cases l with
  | nil => exact absurd rfl h
  | cons u us => rw [List.getLast?_cons_cons]

theorem maskToken_eq_core {v t : Str} (htv : trimSpace v = t) (hne : t ≠ [])
    (hsfs : splitFirstSpace t = (t, none)) : maskToken v = maskCore t := by
  unfold maskToken
  rw [htv, if_neg hne, hsfs]

theorem maskToken_eq_split {v t p0 p1 : Str} (htv : trimSpace v = t) (hne : t ≠ [])
    (hsfs : splitFirstSpace t = (p0, some p1)) :
    maskToken v = p0 ++ ' ' :: maskCore p1 := by
  unfold maskToken
  rw [htv, if_neg hne, hsfs]

/-- `maskToken` is idempotent: re-masking an already masked value leaves it
unchanged.  This is the single-value core of the sanitiser round-trip law. -/
theorem maskToken_maskToken (v : Str) : maskToken (maskToken v) = maskToken v := by
  by_cases ht : trimSpace v = []
  · have h1 : maskToken v = [] := by
      unfold maskToken
      rw [if_pos ht]
    rw [h1]
    decide
  · have hh : ∀ c, (trimSpace v).head? = some c → goIsSpace c = false :=
      fun c hc => trimSpace_head?_false v hc
    have hl : ∀ c, (trimSpace v).getLast? = some c → goIsSpace c = false :=
      fun c hc => trimSpace_getLast?_false v hc
    cases hdw : (trimSpace v).dropWhile notSpace with
    | nil =>
      have hns : ∀ c ∈ trimSpace v, c ≠ ' ' := by
        intro c hc
        have h2 := List.dropWhile_eq_nil_iff.mp hdw c hc
        simpa [notSpace] using h2
      have hmt : maskToken v = maskCore (trimSpace v) :=
        maskToken_eq_core rfl ht (splitFirstSpace_no_space hns)
      rw [hmt]
      by_cases hlen : (trimSpace v).length ≤ 4
      · rw [maskCore_short hlen]
        decide
      · obtain ⟨a, b, r, c, d, hr, hteq, hha, hld⟩ := exists_long_decomp hlen
        have hga : goIsSpace a = false := hh a hha
        have hgd : goIsSpace d = false := hl d hld
        have hshape : maskCore (trimSpace v) = a :: b :: '*' :: '*' :: '*' :: c :: d :: [] := by
          rw [hteq]
          exact maskCore_long_shape hr
        rw [hshape]
        have hwns : ∀ y ∈ (a :: b :: '*' :: '*' :: '*' :: c :: d :: []), y ≠ ' ' := by
          intro y hy
          simp only [List.mem_cons, List.not_mem_nil, or_false] at hy
          rcases hy with h1 | h1 | h1 | h1 | h1 | h1 | h1 <;> subst h1
          · exact hns _ (by rw [hteq]; simp)
          · exact hns _ (by rw [hteq]; simp)
          · decide
          · decide
          · decide
          · exact hns _ (by rw [hteq]; simp)
          · exact hns _ (by rw [hteq]; simp)
        have hts : trimSpace (a :: b :: '*' :: '*' :: '*' :: c :: d :: [])
            = a :: b :: '*' :: '*' :: '*' :: c :: d :: [] := by
          apply trimSpace_eq_self
          · intro x hx
            simp only [List.head?_cons, Option.some.injEq] at hx
            subst hx
            exact hga
          · intro x hx
            have hgl : (a :: b :: '*' :: '*' :: '*' :: c :: d :: []).getLast? = some d := rfl
            rw [hgl] at hx
            injection hx with hx
            subst hx
            exact hgd
        rw [maskToken_eq_core hts (by simp) (splitFirstSpace_no_space hwns)]
        exact @maskCore_long_shape a b ('*' :: '*' :: '*' :: []) c d (by simp)
    | cons x xs =>
      have hx : notSpace x = false := dropWhile_head_false hdw
      have hxsp : x = ' ' := by
        simpa [notSpace, bne_eq_false_iff_eq] using hx
      subst hxsp
      have hdecomp : trimSpace v = (trimSpace v).takeWhile notSpace ++ ' ' :: xs := by
        conv_lhs => rw [← List.takeWhile_append_dropWhile notSpace (trimSpace v)]
        rw [hdw]
      have hp0ns : ∀ c ∈ (trimSpace v).takeWhile notSpace, c ≠ ' ' := by
        intro c hc
        have h2 := mem_takeWhile_pred hc
        simpa [notSpace] using h2
      have hsfs : splitFirstSpace (trimSpace v)
          = ((trimSpace v).takeWhile notSpace, some xs) := by
        conv_lhs => rw [hdecomp]
        exact splitFirstSpace_append hp0ns
      have hmt : maskToken v = (trimSpace v).takeWhile notSpace ++ ' ' :: maskCore xs :=
        maskToken_eq_split rfl ht hsfs
      rw [hmt]
      have hp0ne : (trimSpace v).takeWhile notSpace ≠ [] := by
        intro he
        have hht : (trimSpace v).head? = some ' ' := by
          conv_lhs => rw [hdecomp]
          rw [he]
          rfl
        exact absurd (hh ' ' hht) (by decide)
      have hxs_ne : xs ≠ [] := by
        intro he
        subst he
        have hlt : (trimSpace v).getLast? = some ' ' := by
          conv_lhs => rw [hdecomp]
          rw [List.getLast?_append_of_ne_nil _ (List.cons_ne_nil _ _)]
          rfl
        exact absurd (hl ' ' hlt) (by decide)
      have hxl : ∀ c, xs.getLast? = some c → goIsSpace c = false := by
        intro c hc
        apply hl
        conv_lhs => rw [hdecomp]
        rw [List.getLast?_append_of_ne_nil _ (List.cons_ne_nil _ _),
          getLast?_cons_of_ne_nil hxs_ne]
        exact hc
      have hph : ∀ c, ((trimSpace v).takeWhile notSpace).head? = some c →
          goIsSpace c = false := by
        intro c hc
        apply hh
        conv_lhs => rw [hdecomp]
        rw [List.head?_append_of_ne_nil _ hp0ne]
        exact hc
      have hwh : ∀ c, ((trimSpace v).takeWhile notSpace ++ ' ' :: maskCore xs).head? = some c →
          goIsSpace c = false := by
        intro c hc
        rw [List.head?_append_of_ne_nil _ hp0ne] at hc
        exact hph c hc
      have hwl : ∀ c, ((trimSpace v).takeWhile notSpace ++ ' ' :: maskCore xs).getLast? = some c →
          goIsSpace c = false := by
        intro c hc
        rw [List.getLast?_append_of_ne_nil _ (List.cons_ne_nil _ _),
          getLast?_cons_of_ne_nil (maskCore_ne_nil xs)] at hc
        rcases maskCore_getLast? xs with hg | hg
        · rw [hg] at hc
          injection hc with hc
          subst hc
          decide
        · rw [hg] at hc
          exact hxl c hc
      have hts : trimSpace ((trimSpace v).takeWhile notSpace ++ ' ' :: maskCore xs)
          = (trimSpace v).takeWhile notSpace ++ ' ' :: maskCore xs :=
        trimSpace_eq_self hwh hwl
      have hwne : (trimSpace v).takeWhile notSpace ++ ' ' :: maskCore xs ≠ [] := by
        simp
      rw [maskToken_eq_split hts hwne (splitFirstSpace_append hp0ns), maskCore_maskCore]

/-! ## C2 and C8: the sanitiser against the specified masking rule -/

/-- The masking core exactly as the spec words it (C2): a token of length at
most 4 becomes `***`; a longer token keeps its first two and last two
characters around `***`. -/
def maskCoreSpec (l : Str) : Str :=
  if l.length ≤ 4 then ('*' :: '*' :: '*' :: [])
  else l.take 2 ++ ('*' :: '*' :: '*' :: []) ++ l.drop (l.length - 2)

/-- The per-value masking rule exactly as the spec words it (C2): trim; if the
value splits on the first space into two parts, preserve the first part, a
single space, and mask the remainder; otherwise mask the whole. -/
def maskValueSpec (v : Str) : Str :=
  match splitFirstSpace (trimSpace v) with
  | (p0, some p1) => p0 ++ ' ' :: maskCoreSpec p1
  | (_, none) => maskCoreSpec (trimSpace v)

/-- The sanitiser as the claim states it (C2): sensitive values are masked by
`maskValueSpec`, other values joined, an empty map yields an absent map. -/
def sanitiseHeadersSpec (h : List (Str × List Str)) : Option (List (Str × Str)) :=
  if h = [] then none
  else
    some (h.map fun kv =>
      if sensitiveHeaders.contains (lowerStr kv.1) then
        (kv.1, joinComma (kv.2.map maskValueSpec))
      else (kv.1, joinComma kv.2))

/-- The spec's masking rule amended on the single point the code forces: a
value that is empty after trimming masks to the empty string, not `***`. -/
def maskValueSpecAmended (v : Str) : Str :=
  if trimSpace v = [] then [] else maskValueSpec v

/-- The amended sanitiser rule of C2. -/
def sanitiseHeadersSpecAmended (h : List (Str × List Str)) : Option (List (Str × Str)) :=
  if h = [] then none
  else
    some (h.map fun kv =>
      if sensitiveHeaders.contains (lowerStr kv.1) then
        (kv.1, joinComma (kv.2.map maskValueSpecAmended))
      else (kv.1, joinComma kv.2))

theorem maskToken_eq_amended (v : Str) : maskToken v = maskValueSpecAmended v := by
  unfold maskValueSpecAmended
  by_cases ht : trimSpace v = []
  · rw [if_pos ht]
    unfold maskToken
    rw [if_pos ht]
  · rw [if_neg ht]
    unfold maskToken maskValueSpec
    rw [if_neg ht]
    rfl

/-- C2 (counterexample): on the header map `{Authorization: [" "]}` the code
yields the empty masked value, while the claim's rule (value trims to the
empty token, whose length is at most 4) requires `***`. -/
theorem sanitiser_empty_value_counterexample :
    sanitiseHeaders [(("Authorization").data, [(" ").data])]
      = some [(("Authorization").data, ([] : Str))] ∧
    sanitiseHeadersSpec [(("Authorization").data, [(" ").data])]
      = some [(("Authorization").data, ("***").data)] ∧
    sanitiseHeaders [(("Authorization").data, [(" ").data])]
      ≠ sanitiseHeadersSpec [(("Authorization").data, [(" ").data])] := by
  refine ⟨by decide, by decide, by decide⟩

theorem joinComma_singleton (x : Str) : joinComma (x :: []) = x := by
  simp [joinComma, List.intercalate]

/-- C2 (amended): the sanitiser agrees with the spec's masking rule on every
header map, once the rule is amended so that a value that is empty after
trimming masks to the empty string; empty input still yields an absent map. -/
theorem sanitiser_matches_amended_rule (h : List (Str × List Str)) :
    sanitiseHeaders h = sanitiseHeadersSpecAmended h := by
  unfold sanitiseHeaders sanitiseHeadersSpecAmended
  by_cases hne : h = []
  · rw [if_pos hne, if_pos hne]
  · rw [if_neg hne, if_neg hne]
    congr 1
    apply List.map_congr_left
    intro kv _
    unfold sanitiseEntry
    by_cases hsen : sensitiveHeaders.contains (lowerStr kv.1) = true
    · rw [if_pos hsen, if_pos hsen]
      unfold redactValues
      by_cases hv : kv.2 = []
      · rw [if_pos hv, hv]
        rfl
      · rw [if_neg hv]
        have hfun : maskToken = maskValueSpecAmended := funext maskToken_eq_amended
        rw [hfun]
    · rw [if_neg hsen, if_neg hsen]

/-- Treating the sanitiser's string-valued output as a header map again, each
output value becoming the sole value of its key (C8). -/
def outToIn (o : Option (List (Str × Str))) : List (Str × List Str) :=
  match o with
  | none => []
  | some l => l.map fun kv => (kv.1, kv.2 :: [])

/-- C8 (counterexample): a sensitive header with three values masks to
`***, ***, ***`; re-sanitising that output re-masks everything after the first
space and yields `***, *******` instead, so sanitisation is not idempotent on
its output. -/
theorem sanitiser_not_idempotent :
    sanitiseHeaders [(("Authorization").data,
        [("tok1").data, ("tok2").data, ("tok3").data])]
      = some [(("Authorization").data, ("***, ***, ***").data)] ∧
    sanitiseHeaders (outToIn (sanitiseHeaders [(("Authorization").data,
        [("tok1").data, ("tok2").data, ("tok3").data])]))
      = some [(("Authorization").data, ("***, *******").data)] ∧
    sanitiseHeaders (outToIn (sanitiseHeaders [(("Authorization").data,
        [("tok1").data, ("tok2").data, ("tok3").data])]))
      ≠ sanitiseHeaders [(("Authorization").data,
        [("tok1").data, ("tok2").data, ("tok3").data])] := by
  refine ⟨by decide, by decide, by decide⟩

theorem sanitiseEntry_idem (kv : Str × List Str)
    (hlen : sensitiveHeaders.contains (lowerStr kv.1) = true → kv.2.length ≤ 1) :
    sanitiseEntry ((sanitiseEntry kv).1, (sanitiseEntry kv).2 :: []) = sanitiseEntry kv := by
  unfold sanitiseEntry
  by_cases hsen : sensitiveHeaders.contains (lowerStr kv.1) = true
  · rw [if_pos hsen]
    simp only []
    rw [if_pos hsen]
    rcases hvv : kv.2 with _ | ⟨v, vs⟩
    · rw [show redactValues [] = [] from rfl]
      congr 1
    · have hvs : vs = [] := by
        have h1 := hlen hsen
        rw [hvv] at h1
        simp at h1
        exact h1
      subst hvs
      have h2 : redactValues (v :: []) = maskToken v := by
        unfold redactValues
        rw [if_neg (by simp)]
        simp only [List.map_cons, List.map_nil]
        exact joinComma_singleton _
      rw [h2]
      have h3 : redactValues (maskToken v :: []) = maskToken (maskToken v) := by
        unfold redactValues
        rw [if_neg (by simp)]
        simp only [List.map_cons, List.map_nil]
        exact joinComma_singleton _
      rw [h3, maskToken_maskToken]
  · rw [if_neg hsen]
    simp only []
    rw [if_neg hsen, joinComma_singleton]

/-- C8 (amended): header sanitisation is idempotent on its output — each output
value treated as a single-valued input header under the same key — provided
every sensitive header of the original map carries at most one value.  (With
two or more values the joined masked string is re-masked differently, see the
counterexample.) -/
theorem sanitiser_idempotent_single_valued (h : List (Str × List Str))
    (hs : ∀ kv ∈ h, sensitiveHeaders.contains (lowerStr kv.1) = true → kv.2.length ≤ 1) :
    sanitiseHeaders (outToIn (sanitiseHeaders h)) = sanitiseHeaders h := by
  by_cases hne : h = []
  · subst hne
    rfl
  · have houter : outToIn (sanitiseHeaders h)
        = (h.map sanitiseEntry).map (fun kv => (kv.1, kv.2 :: [])) := by
      unfold sanitiseHeaders outToIn
      rw [if_neg hne]
    rw [houter]
    unfold sanitiseHeaders
    have hmapne : (h.map sanitiseEntry).map (fun kv => (kv.1, kv.2 :: [])) ≠ [] := by
      simp [hne]
    rw [if_neg hmapne, if_neg hne]
    congr 1
    rw [List.map_map, List.map_map]
    apply List.map_congr_left
    intro kv hkv
    exact sanitiseEntry_idem kv (hs kv hkv)

/-- C8 witness: a concrete single-valued sensitive map on which the amended
idempotence law evaluates. -/
theorem sanitiser_idempotent_single_valued_witness :
    sanitiseHeaders (outToIn (sanitiseHeaders
        [(("Authorization").data, [("Bearer secrettoken").data]),
         (("Content-Type").data, [("text/plain").data, ("v2").data])]))
      = sanitiseHeaders
        [(("Authorization").data, [("Bearer secrettoken").data]),
         (("Content-Type").data, [("text/plain").data, ("v2").data])] :=
  sanitiser_idempotent_single_valued _ (by decide)

/-! ## Requests, responses, headers (net/http fragment used by the proxy) -/

/-- `strings.EqualFold` (ASCII-adequate: simple case folding). -/
def equalFold (a b : Str) : Bool := lowerStr a == lowerStr b

/-- `http.Header.Get`: keys are stored in canonical form, so the lookup is a
case-insensitive key match returning the first value (empty for a missing key
or an empty value list). -/
def headerGet (headers : List (Str × List Str)) (name : Str) : Str :=
  match headers.find? (fun kv => equalFold kv.1 name) with
  | some (_, v :: _) => v
  | _ => []

/-- `http.Header.Del` (canonical-key deletion, case-insensitive). -/
def headerDel (headers : List (Str × List Str)) (name : Str) : List (Str × List Str) :=
  headers.filter (fun kv => !(equalFold kv.1 name))

/-- All values the request carries for a header name (used to state C7). -/
def headerAllValues (headers : List (Str × List Str)) (name : Str) : List Str :=
  ((headers.filter (fun kv => equalFold kv.1 name)).map Prod.snd).flatten

/-- The parts of `url.URL` the proxy touches. -/
structure URLm where
  scheme : Str
  host : Str
  path : Str
  deriving Repr, DecidableEq

/-- The parts of `http.Request` the proxy touches.  The body is the list of
chunks its reader will deliver. -/
structure Request where
  method : Str
  url : Option URLm
  host : Str
  headers : List (Str × List Str)
  body : List (List Nat)
  contentLength : Int
  remoteAddr : Str
  deriving Repr, DecidableEq

/-- The parts of `http.Response` the proxy touches. -/
structure Response where
  statusCode : Nat
  headers : List (Str × List Str)
  body : List (List Nat)
  contentLength : Int
  deriving Repr, DecidableEq

/-! ## Filter chain (internal/proxy/filters.go) -/

/-- A filter: a pair of hooks; `some reason` is a rejection
(`ApplyRequest` / `ApplyResponse` returning a non-nil error).  (Named
`ProxyFilter` because `Filter` is taken by the ambient library.) -/
structure ProxyFilter where
  applyRequest : Request → Option Str
  applyResponse : Response → Option Str

/-- `FilterChain.ApplyRequest`: run request hooks in order until one fails. -/
def applyRequestChain : List ProxyFilter → Request → Option Str
  | [], _ => none
  | f :: fs, r =>
    match f.applyRequest r with
    | some e => some e
    | none => applyRequestChain fs r

/-- `FilterChain.ApplyResponse`: run response hooks in order until one fails. -/
def applyResponseChain : List ProxyFilter → Response → Option Str
  | [], _ => none
  | f :: fs, resp =>
    match f.applyResponse resp with
    | some e => some e
    | none => applyResponseChain fs resp

/-- `BlockHeaderFilter.ApplyRequest`: look up the header's (first) value; an
empty value passes; otherwise reject when it case-insensitively equals one of
the denied values. -/
def blockHeaderApplyRequest (header : Str) (values : List Str) (r : Request) : Option Str :=
  if headerGet r.headers header = [] then none
  else if values.any (fun denied => equalFold (headerGet r.headers header) denied) then
    some ((("blocked by header filter: ").data) ++ header ++ ('=' :: []) ++
      headerGet r.headers header)
  else none

/-- `BlockHeaderFilter` packaged as a chain element (its response hook is a
no-op). -/
def mkBlockHeaderFilter (header : Str) (values : List Str) : ProxyFilter :=
  { applyRequest := blockHeaderApplyRequest header values
    applyResponse := fun _ => none }

/-- `NoopFilter`. -/
def noopFilter : ProxyFilter :=
  { applyRequest := fun _ => none, applyResponse := fun _ => none }

/-! ## Host handling (net.SplitHostPort, handler.allowed, mitmInterceptsHost) -/

/-- Index of the first occurrence of a character. -/
def firstIdxOf (c : Char) (s : Str) : Option Nat := s.findIdx? (· == c)

/-- Index of the last occurrence of a character. -/
def lastIdxOf (c : Char) (s : Str) : Option Nat :=
  (s.reverse.findIdx? (· == c)).map (fun j => s.length - 1 - j)

/-- `net.SplitHostPort`; `none` models any of its error returns. -/
def goSplitHostPort (s : Str) : Option (Str × Str) :=
  match lastIdxOf ':' s with
  | none => none
  | some i =>
    if s.head? = some '[' then
      match firstIdxOf ']' s with
      | none => none
      | some e =>
        if e + 1 = s.length then none
        else if e + 1 = i then
          if (s.drop 1).any (· == '[') then none
          else if (s.drop (e + 1)).any (· == ']') then none
          else some ((s.take e).drop 1, s.drop (i + 1))
        else none
    else
      if (s.take i).any (· == ':') then none
      else if s.any (· == '[') then none
      else if s.any (· == ']') then none
      else some (s.take i, s.drop (i + 1))

/-- `handler.allowed` from the forwarder: an empty target is rejected; an empty
allow-list admits everything else; otherwise the port is stripped (a failed
split leaves the zero-valued empty host) and entries match on `*` or
case-insensitive equality. -/
def allowedHost (allowHosts : List Str) (target : Str) : Bool :=
  if target = [] then false
  else if allowHosts = [] then true
  else
    let host := if target.any (· == ':') then
        (match goSplitHostPort target with
         | some (h, _) => h
         | none => [])
      else target
    allowHosts.any (fun a => a == ('*' :: []) || equalFold a host)

/-- `handler.mitmInterceptsHost`: MITM must be enabled and the host part of the
target (falling back to the whole target when the split fails) must not be on
the disable list. -/
def mitmIntercepts (enabled : Bool) (disabled : List Str) (target : Str) : Bool :=
  if !enabled then false
  else
    let host := if target.any (· == ':') then
        (match goSplitHostPort target with
         | some (h, _) => h
         | none => target)
      else target
    !(disabled.any (fun dis => equalFold dis host))

example : allowedHost [("*").data] (("example.com:443").data) = true := by decide
example : allowedHost [("Example.COM").data] (("example.com:443").data) = true := by decide
example : allowedHost [("other.com").data] (("example.com").data) = false := by decide
example : allowedHost [] (("anything").data) = true := by decide
example : allowedHost [("*").data] [] = false := by decide
example : goSplitHostPort (("[::1]:80").data) = some (("::1").data, ("80").data) := by decide

/-! ## Audit entries and the forwarder (internal/proxy, handler) -/

/-- Bytes rendered as a Go string (`string(buf.Bytes())`). -/
def bytesToStr (bs : List Nat) : Str := bs.map Char.ofNat

/-- `audit.ClientAddrFromRequest`. -/
def clientAddrFromRequest (r : Request) : Str :=
  if headerGet r.headers (("X-Forwarded-For").data) ≠ [] then
    headerGet r.headers (("X-Forwarded-For").data)
  else
    match goSplitHostPort r.remoteAddr with
    | some (host, _) => host
    | none => r.remoteAddr

/-- The request summary of an audit entry (`audit.HTTPRequest`; the URL's
textual rendering is kept as the structured URL). -/
structure HTTPRequestRec where
  method : Str
  url : Option URLm
  headers : Option (List (Str × Str))
  contentLength : Int
  deriving Repr, DecidableEq

/-- The response summary of an audit entry (`audit.HTTPResponse`). -/
structure HTTPResponseRec where
  status : Nat
  headers : Option (List (Str × Str))
  contentLength : Int
  deriving Repr, DecidableEq

/-- `audit.ConnMetadata`. -/
structure ConnMeta where
  clientAddr : Str
  target : Str
  protocol : Str
  deriving Repr, DecidableEq

/-- `audit.Entry` (timestamp and latency, being wall-clock quantities, are not
modelled). -/
structure Entry where
  id : Str
  conn : ConnMeta
  request : Option HTTPRequestRec
  response : Option HTTPResponseRec
  profile : Option Str
  error : Option Str
  attributes : List (Str × Str)
  deriving Repr, DecidableEq

/-- `newHTTPRequest`. -/
def newHTTPRequest (r : Request) : Option HTTPRequestRec :=
  some { method := r.method, url := r.url, headers := sanitiseHeaders r.headers,
         contentLength := r.contentLength }

/-- `newHTTPResponse`: a negative declared content length is replaced by the
byte count handed in by the caller. -/
def newHTTPResponse (resp : Response) (bodyBytes : Int) : HTTPResponseRec :=
  { status := resp.statusCode, headers := sanitiseHeaders resp.headers,
    contentLength := if resp.contentLength < 0 then bodyBytes else resp.contentLength }

/-- `cloneRequest`: default the scheme to `http`, fall back to the `Host`
header for the URL host, strip the three `Proxy-*` headers, return the clone
and the target `host[:port]`. -/
def cloneRequest (r : Request) : Except Str (Request × Str) :=
  match r.url with
  | none => .error (("missing url").data)
  | some u =>
    let scheme := if u.scheme = [] then ("http").data else u.scheme
    let host := if u.host = [] then r.host else u.host
    let headers := headerDel (headerDel (headerDel r.headers
      (("Proxy-Connection").data)) (("Proxy-Authenticate").data))
      (("Proxy-Authorization").data)
    let outbound : Request :=
      { r with url := some ({ u with scheme := scheme, host := host })
               headers := headers }
    .ok (outbound, host)

/-- The scheme of a (cloned) request's URL. -/
def schemeOf (r : Request) : Str :=
  match r.url with
  | some u => u.scheme
  | none => []

/-- A matched profile: its name and the attributes it contributes
(`profiles.Registry.Match` / `Profile.Annotate`, passed in as an oracle). -/
structure ProfileResult where
  name : Str
  attrs : List (Str × Str)

/-- The handler's configuration-derived state. -/
structure HandlerCfg where
  allowHosts : List Str
  excerptLimit : Int
  mitmEnabled : Bool
  mitmDisabled : List Str
  filters : List ProxyFilter

/-- The observable outcome of `handler.handleHTTP` for one request: the status
written to the client, the body bytes streamed to it, the audit records
emitted, and whether the upstream transport was invoked. -/
structure HandleResult where
  status : Nat
  clientBody : List Nat
  records : List Entry
  transportCalled : Bool

/-- `handler.logError`: an entry carrying connection metadata, the request
summary and the error message. -/
def logErrorEntry (reqID : Str) (r : Request) (target : Str) (protocol : Str)
    (errMsg : Str) : Entry :=
  { id := reqID
    conn := { clientAddr := clientAddrFromRequest r, target := target,
              protocol := protocol }
    request := newHTTPRequest r
    response := none
    profile := none
    error := some errMsg
    attributes := [] }

/-- The `mitm` attribute chosen on the plain-HTTP success path. -/
def mitmAttrValue (cfg : HandlerCfg) (target : Str) : Str :=
  if mitmIntercepts cfg.mitmEnabled cfg.mitmDisabled target then ("enabled").data
  else if cfg.mitmEnabled then ("skipped").data
  else ("disabled").data

/-- The excerpt attributes contributed by the two tee buffers (present only
when non-empty). -/
def excerptAttrs (reqBuf respBuf : Option LimitedBuffer) : List (Str × Str) :=
  (match reqBuf with
   | some buf => if 0 < buf.data.length then
       [(("request_excerpt").data, bytesToStr buf.data)] else []
   | none => []) ++
  (match respBuf with
   | some buf => if 0 < buf.data.length then
       [(("response_excerpt").data, bytesToStr buf.data)] else []
   | none => [])

/-- `handler.handleHTTP` (§4.2 of the spec): clone, allow-list check, request
tee, request filters, upstream round trip, response tee, response filters,
stream back, assemble exactly one audit entry.  The upstream transport and the
profile registry enter as oracles; reading the streamed request and response
bodies through the tees uses the buffer semantics proved in C1. -/
def handleHTTP (cfg : HandlerCfg) (transport : Request → Except Str Response)
    (pf : Request → Option ProfileResult) (reqID : Str) (r : Request) : HandleResult :=
  match cloneRequest r with
  | .error e =>
    { status := 400, clientBody := [], transportCalled := false
      records := [logErrorEntry reqID r [] (("http").data) e] }
  | .ok (outbound, targetHost) =>
    if !allowedHost cfg.allowHosts targetHost then
      { status := 403, clientBody := [], transportCalled := false
        records := [logErrorEntry reqID r targetHost (("http").data)
          ((("blocked host: ").data) ++ targetHost)] }
    else
      let reqBuf : Option LimitedBuffer :=
        if 0 < cfg.excerptLimit ∧ outbound.body ≠ [] then
          some (teeRunAll outbound.body (mkBuffer cfg.excerptLimit)).2
        else none
      match applyRequestChain cfg.filters outbound with
      | some reason =>
        { status := 403, clientBody := [], transportCalled := false
          records := [logErrorEntry reqID r targetHost (schemeOf outbound)
            ((("request filter rejected: ").data) ++ reason)] }
      | none =>
        match transport outbound with
        | .error e =>
          { status := 502, clientBody := [], transportCalled := true
            records := [logErrorEntry reqID r targetHost (schemeOf outbound) e] }
        | .ok resp =>
          let respBuf : Option LimitedBuffer :=
            if 0 < cfg.excerptLimit then
              some (teeRunAll resp.body (mkBuffer cfg.excerptLimit)).2
            else none
          match applyResponseChain cfg.filters resp with
          | some reason =>
            { status := 502, clientBody := [], transportCalled := true
              records := [logErrorEntry reqID r targetHost (schemeOf outbound)
                ((("response filter rejected: ").data) ++ reason)] }
          | none =>
            let bytesCopied : Int := ((resp.body.flatten).length : Int)
            let entry : Entry := {
              id := reqID
              conn := { clientAddr := clientAddrFromRequest r, target := targetHost,
                        protocol := schemeOf outbound }
              request := newHTTPRequest r
              response := some (newHTTPResponse resp bytesCopied)
              profile := (pf outbound).map ProfileResult.name
              error := none
              attributes := excerptAttrs reqBuf respBuf ++
                [(("mitm").data, mitmAttrValue cfg targetHost)] ++
                (match pf outbound with
                 | some p => p.attrs
                 | none => []) }
            { status := resp.statusCode, clientBody := resp.body.flatten
              transportCalled := true, records := [entry] }

/-! ## MITM request processing (internal/proxy, processMitmRequest) -/

/-- The observable outcome of `handler.processMitmRequest` for one decrypted
request: the wire status written back into the tunnel, the body bytes streamed,
the audit records emitted, and whether the transport was invoked. -/
structure MitmResult where
  status : Nat
  clientBody : List Nat
  records : List Entry
  transportCalled : Bool

/-- `handler.writeMitmStatus`'s audit entry: the synthetic plain-text response
(body = message + newline) is recorded together with the error message and
`mitm = enabled`. -/
def writeMitmStatusEntry (reqID : Str) (inbound : Request) (targetHost : Str)
    (status : Nat) (message : Str) : Entry :=
  let resp : Response := {
    statusCode := status
    headers := [(("Content-Type").data, [("text/plain; charset=utf-8").data])]
    body := [(message ++ ('\n' :: [])).map Char.toNat]
    contentLength := (message.length : Int) + 1 }
  { id := reqID
    conn := { clientAddr := clientAddrFromRequest inbound, target := targetHost,
              protocol := ("https").data }
    request := newHTTPRequest inbound
    response := some (newHTTPResponse resp ((message.length : Int) + 1))
    profile := none
    error := some message
    attributes := [(("mitm").data, ("enabled").data)] }

/-- The normalisation step of `processMitmRequest`: scheme `https`, URL host
and `Host` header set to the CONNECT target. -/
def mitmNormalize (inbound0 : Request) (targetHost : Str) : Request :=
  let u0 := match inbound0.url with
    | some u => u
    | none => { scheme := [], host := [], path := [] }
  { inbound0 with url := some ({ u0 with scheme := ("https").data, host := targetHost })
                  host := targetHost }

/-- `handler.processMitmRequest` (§4.7 step 3): normalise the decrypted request
to the CONNECT target, clone, request tee, request filters (403 on rejection),
round trip (502 on failure), response filters (502 on rejection), response tee,
write the wire response, and record with the excerpt-buffer length standing in
for an unknown content length. -/
def processMitmRequest (cfg : HandlerCfg) (transport : Request → Except Str Response)
    (pf : Request → Option ProfileResult) (reqID : Str) (inbound0 : Request)
    (targetHost : Str) : MitmResult :=
  let inbound : Request := mitmNormalize inbound0 targetHost
  match cloneRequest inbound with
  | .error e =>
    { status := 502, clientBody := [], transportCalled := false
      records := [writeMitmStatusEntry reqID inbound targetHost 502
        ((("clone request: ").data) ++ e)] }
  | .ok (outbound, _) =>
    let reqBuf : Option LimitedBuffer :=
      if 0 < cfg.excerptLimit ∧ outbound.body ≠ [] then
        some (teeRunAll outbound.body (mkBuffer cfg.excerptLimit)).2
      else none
    match applyRequestChain cfg.filters outbound with
    | some reason =>
      { status := 403, clientBody := [], transportCalled := false
        records := [writeMitmStatusEntry reqID inbound targetHost 403
          ((("request blocked: ").data) ++ reason)] }
    | none =>
      match transport outbound with
      | .error e =>
        { status := 502, clientBody := [], transportCalled := true
          records := [writeMitmStatusEntry reqID inbound targetHost 502
            ((("upstream error: ").data) ++ e)] }
      | .ok resp =>
        match applyResponseChain cfg.filters resp with
        | some reason =>
          { status := 502, clientBody := [], transportCalled := true
            records := [writeMitmStatusEntry reqID inbound targetHost 502
              ((("response blocked: ").data) ++ reason)] }
        | none =>
          let respBuf : Option LimitedBuffer :=
            if 0 < cfg.excerptLimit then
              some (teeRunAll resp.body (mkBuffer cfg.excerptLimit)).2
            else none
          let bodyLen : Int :=
            if resp.contentLength < 0 then
              match respBuf with
              | some buf => (buf.data.length : Int)
              | none => resp.contentLength
            else resp.contentLength
          let entry : Entry := {
            id := reqID
            conn := { clientAddr := clientAddrFromRequest inbound, target := targetHost,
                      protocol := ("https").data }
            request := newHTTPRequest inbound
            response := some (newHTTPResponse resp bodyLen)
            profile := (pf outbound).map ProfileResult.name
            error := none
            attributes := excerptAttrs reqBuf respBuf ++
              [(("mitm").data, ("enabled").data)] ++
              (match pf outbound with
               | some p => p.attrs
               | none => []) }
          { status := resp.statusCode, clientBody := resp.body.flatten
            transportCalled := true, records := [entry] }

/-! ## CONNECT handler (internal/proxy, handler.handleConnect) -/

/-- Environment outcomes of the CONNECT path that are outside the model: the
hijack, the 200-established flush, the upstream dial, the bidirectional splice,
and the MITM session. -/
structure ConnectOracle where
  hijackOk : Bool
  flushOk : Bool
  dialErr : Option Str
  tunnelErr : Option Str
  mitmErr : Option Str

/-- The observable outcome of `handler.handleConnect`: the HTTP status written
(if the path writes one) and the audit records emitted. -/
structure ConnectResult where
  status : Option Nat
  records : List Entry

/-- `handler.handleConnect` (§4.6): allow-list check (403), hijack (500 when
unsupported), 200-established flush, MITM hand-off or upstream dial (502) and
raw tunnel; every terminal path except a clean MITM session emits one record
here (a MITM session's records come from `processMitmRequest`). -/
def handleConnect (cfg : HandlerCfg) (o : ConnectOracle) (reqID : Str)
    (r : Request) : ConnectResult :=
  if !allowedHost cfg.allowHosts r.host then
    { status := some 403
      records := [logErrorEntry reqID r r.host (("connect").data)
        ((("blocked host: ").data) ++ r.host)] }
  else if !o.hijackOk then
    { status := some 500
      records := [logErrorEntry reqID r r.host (("connect").data)
        (("response writer does not implement hijacker").data)] }
  else if !o.flushOk then
    { status := none
      records := [logErrorEntry reqID r r.host (("connect").data)
        (("flush failed").data)] }
  else if mitmIntercepts cfg.mitmEnabled cfg.mitmDisabled r.host then
    match o.mitmErr with
    | some e =>
      { status := none
        records := [logErrorEntry reqID r r.host (("mitm").data) e] }
    | none => { status := none, records := [] }
  else
    match o.dialErr with
    | some e =>
      { status := some 502
        records := [logErrorEntry reqID r r.host (("connect").data)
          ((("dial failed: ").data) ++ e)] }
    | none =>
      let entry : Entry := {
        id := reqID
        conn := { clientAddr := clientAddrFromRequest r, target := r.host,
                  protocol := ("connect").data }
        request := none
        response := none
        profile := none
        error := o.tunnelErr
        attributes := [(("mitm").data,
          if cfg.mitmEnabled then ("planned").data else ("disabled").data)] }
      { status := none, records := [entry] }

/-! ## Request identifiers (handler.nextID) -/

/-- Decimal rendering of a natural number (`fmt.Sprintf("%d", n)`). -/
def natChars (n : Nat) : Str :=
  if n = 0 then ('0' :: []) else ((Nat.digits 10 n).map Nat.digitChar).reverse

/-- The identifier `fmt.Sprintf("req-%d", seq)`. -/
def reqIdOf (n : Nat) : Str := ("req-").data ++ natChars n

/-- The modulus of Go's `uint64`. -/
def uint64Mod : Nat := 2 ^ 64

/-- `handler.nextID`: `atomic.AddUint64(&h.requestSeq, 1)` — the `uint64`
counter advances modulo `2^64` (it wraps) — and the identifier is rendered
from the incremented value. -/
def nextID (seq : Nat) : Nat × Str :=
  ((seq + 1) % uint64Mod, reqIdOf ((seq + 1) % uint64Mod))

/-! ## Leaf certificate issuance and cache (internal/mitm) -/

/-- The leaf certificate data the claims are about.  Randomness of the 128-bit
serial and of the RSA key is modelled by a freshness counter: distinct
issuances carry distinct serials. -/
structure CertM where
  serial : Nat
  notBefore : Int
  notAfter : Int
  deriving Repr, DecidableEq

/-- `mitm.Manager` state: the enable flag, the host-keyed cache of
(certificate, expiry) pairs, and the issuance counter.  Time is in seconds. -/
structure MitmState where
  enabled : Bool
  cache : List (Str × (CertM × Int))
  nextSerial : Nat
  deriving Repr, DecidableEq

/-- `defaultLeafTTL = 6 * time.Hour`, in seconds. -/
def leafTTL : Int := 21600

/-- Go map read `m.cache[cleanHost]`. -/
def lookupCache (cache : List (Str × (CertM × Int))) (k : Str) : Option (CertM × Int) :=
  (cache.find? (fun e => e.1 == k)).map Prod.snd

/-- Go map write `m.cache[cleanHost] = entry` (last write wins). -/
def insertCache (cache : List (Str × (CertM × Int))) (k : Str) (v : CertM × Int) :
    List (Str × (CertM × Int)) :=
  (k, v) :: cache.filter (fun e => !(e.1 == k))

/-- `Issuer.IssueCertificate`: validity `[now - 1h, now + 24h]`, fresh
serial. -/
def issueCertificate (nextSerial : Nat) (now : Int) : CertM :=
  { serial := nextSerial, notBefore := now - 3600, notAfter := now + 86400 }

/-- The manager state after issuing and storing a fresh leaf for `host`. -/
def issuedState (s : MitmState) (now : Int) (host : Str) : MitmState :=
  { s with
    cache := insertCache s.cache (lowerStr host)
      (issueCertificate s.nextSerial now, now + leafTTL)
    nextSerial := s.nextSerial + 1 }

/-- The issue-and-store path of `Manager.LeafForHost`: mint a fresh leaf
(`IssueCertificate` rejects an empty host) and replace the cache entry with
expiry `now + leafTTL`. -/
def issueStore (s : MitmState) (now : Int) (host : Str) :
    Except Str (CertM × MitmState) :=
  if lowerStr host = [] then .error (("host must not be empty").data)
  else .ok (issueCertificate s.nextSerial now, issuedState s now host)

/-- `Manager.LeafForHost`: error when disabled; lowercase the host; a cached
entry is used only while `now < expires`; otherwise issue and store. -/
def leafForHost (s : MitmState) (now : Int) (host : Str) :
    Except Str (CertM × MitmState) :=
  if !s.enabled then .error (("mitm disabled").data)
  else
    match lookupCache s.cache (lowerStr host) with
    | some (cert, expires) =>
      if now < expires then .ok (cert, s)
      else issueStore s now host
    | none => issueStore s now host

/-- Cache invariant: every cached certificate was issued by this manager (its
serial is below the counter) and its `NotAfter` sits `18h` past the cache
expiry (issuance sets `NotAfter = issue + 24h` and expiry `issue + 6h`). -/
def CacheInv (s : MitmState) : Prop :=
  ∀ e ∈ s.cache, e.2.1.serial < s.nextSerial ∧ e.2.1.notAfter = e.2.2 + 64800

theorem lookupCache_insert_self (cache : List (Str × (CertM × Int))) (k : Str)
    (v : CertM × Int) : lookupCache (insertCache cache k v) k = some v := by
  simp [lookupCache, insertCache]

theorem mem_insertCache {cache : List (Str × (CertM × Int))} {k : Str}
    {v : CertM × Int} {e : Str × (CertM × Int)}
    (h : e ∈ insertCache cache k v) : e = (k, v) ∨ e ∈ cache := by
  rcases List.mem_cons.mp h with h1 | h1
  · exact Or.inl h1
  · exact Or.inr (List.mem_filter.mp h1).1

theorem lookupCache_mem {cache : List (Str × (CertM × Int))} {k : Str}
    {v : CertM × Int} (h : lookupCache cache k = some v) :
    ∃ k', (k', v) ∈ cache := by
  unfold lookupCache at h
  cases hf : cache.find? (fun e => e.1 == k) with
  | none =>
    rw [hf] at h
    exact Option.noConfusion h
  | some e =>
    rw [hf] at h
    have h2 : e.2 = v := by
      simpa using h
    refine ⟨e.1, ?_⟩
    have hm := List.mem_of_find?_eq_some hf
    rw [← h2, Prod.mk.eta]
    exact hm

theorem leafForHost_hit {s : MitmState} {now : Int} {host : Str}
    {cert : CertM} {expires : Int}
    (he : s.enabled = true)
    (hlk : lookupCache s.cache (lowerStr host) = some (cert, expires))
    (hfresh : now < expires) :
    leafForHost s now host = .ok (cert, s) := by
  unfold leafForHost
  rw [if_neg (by simp [he]), hlk]
  dsimp only
  rw [if_pos hfresh]

theorem leafForHost_issue {s : MitmState} {now : Int} {host : Str}
    (he : s.enabled = true) (hhost : lowerStr host ≠ [])
    (hmiss : ∀ ce, lookupCache s.cache (lowerStr host) = some ce → ce.2 ≤ now) :
    leafForHost s now host
      = .ok (issueCertificate s.nextSerial now, issuedState s now host) := by
  unfold leafForHost
  rw [if_neg (by simp [he])]
  cases hlk : lookupCache s.cache (lowerStr host) with
  | some ce =>
    have hle := hmiss _ hlk
    obtain ⟨cert, expires⟩ := ce
    dsimp only
    rw [if_neg (by exact not_lt.mpr hle)]
    unfold issueStore
    rw [if_neg hhost]
  | none =>
    dsimp only
    unfold issueStore
    rw [if_neg hhost]

theorem leafForHost_valid {s : MitmState} {now : Int} {host : Str} {c : CertM}
    {s' : MitmState} (hinv : CacheInv s)
    (h : leafForHost s now host = .ok (c, s')) :
    now < c.notAfter ∧ CacheInv s' := by
  unfold leafForHost at h
  by_cases he : s.enabled = true
  · rw [if_neg (by simp [he])] at h
    have hissue : issueStore s now host = .ok (c, s') →
        now < c.notAfter ∧ CacheInv s' := by
      intro h2
      unfold issueStore at h2
      by_cases hhe : lowerStr host = []
      · rw [if_pos hhe] at h2
        simp at h2
      · rw [if_neg hhe] at h2
        simp only [Except.ok.injEq, Prod.mk.injEq] at h2
        obtain ⟨hc, hs⟩ := h2
        subst hs
        constructor
        · rw [← hc]
          simp only [issueCertificate]
          omega
        · intro e he2
          simp only [issuedState] at he2 ⊢
          rcases mem_insertCache he2 with rfl | hmem
          · refine ⟨?_, ?_⟩
            · simp [issueCertificate]
            · simp only [issueCertificate, leafTTL]
              omega
          · have h3 := hinv e hmem
            exact ⟨Nat.lt_succ_of_lt h3.1, h3.2⟩
    cases hlk : lookupCache s.cache (lowerStr host) with
    | some ce =>
      obtain ⟨cert, expires⟩ := ce
      rw [hlk] at h
      dsimp only at h
      by_cases hexp : now < expires
      · rw [if_pos hexp] at h
        simp only [Except.ok.injEq, Prod.mk.injEq] at h
        obtain ⟨hc, hs⟩ := h
        subst hs
        refine ⟨?_, hinv⟩
        obtain ⟨k', hk'⟩ := lookupCache_mem hlk
        have h4 := hinv (k', (cert, expires)) hk'
        dsimp only at h4
        rw [← hc]
        omega
      · rw [if_neg hexp] at h
        exact hissue h
    | none =>
      rw [hlk] at h
      dsimp only at h
      exact hissue h
  · have he2 : s.enabled = false := by
      simpa using he
    rw [if_pos (by simp [he2])] at h
    exact Except.noConfusion h

/-- C3: for every host, a lookup that issues a leaf stores it for the 6-hour
TTL; any second lookup within the TTL returns the same certificate object and
leaves the state unchanged; a lookup after the TTL has elapsed returns a
distinct, freshly issued certificate with validity `[now - 1h, now + 24h]`;
and every certificate returned by a cache lookup is valid with `NotAfter` in
the future (the 24-hour leaf validity exceeds the TTL). -/
theorem leaf_cache_ttl_and_validity :
    (∀ (s : MitmState) (t1 : Int) (host : Str),
      s.enabled = true → CacheInv s → lowerStr host ≠ [] →
      (∀ ce, lookupCache s.cache (lowerStr host) = some ce → ce.2 ≤ t1) →
      leafForHost s t1 host
        = .ok (issueCertificate s.nextSerial t1, issuedState s t1 host) ∧
      (issueCertificate s.nextSerial t1).notBefore = t1 - 3600 ∧
      (issueCertificate s.nextSerial t1).notAfter = t1 + 86400 ∧
      (∀ t2, t2 < t1 + leafTTL →
        leafForHost (issuedState s t1 host) t2 host
          = .ok (issueCertificate s.nextSerial t1, issuedState s t1 host)) ∧
      (∀ t2 c2 s2, t1 + leafTTL ≤ t2 →
        leafForHost (issuedState s t1 host) t2 host = .ok (c2, s2) →
        c2 ≠ issueCertificate s.nextSerial t1 ∧
        c2.notBefore = t2 - 3600 ∧ c2.notAfter = t2 + 86400)) ∧
    (∀ (s : MitmState) (now : Int) (host : Str) (c : CertM) (s' : MitmState),
      CacheInv s → leafForHost s now host = .ok (c, s') →
      now < c.notAfter ∧ CacheInv s') := by
  constructor
  · intro s t1 host he hinv hhost hmiss
    refine ⟨leafForHost_issue he hhost hmiss, rfl, rfl, ?_, ?_⟩
    · intro t2 ht2
      apply leafForHost_hit
      · simp [issuedState, he]
      · simp only [issuedState]
        exact lookupCache_insert_self _ _ _
      · exact ht2
    · intro t2 c2 s2 ht2 hok
      have hm2 : ∀ ce, lookupCache (issuedState s t1 host).cache (lowerStr host)
          = some ce → ce.2 ≤ t2 := by
        intro ce hce
        simp only [issuedState] at hce
        rw [lookupCache_insert_self] at hce
        injection hce with h2
        rw [← h2]
        exact ht2
      have hiss2 := @leafForHost_issue (issuedState s t1 host) t2 host
        (by simp [issuedState, he]) hhost hm2
      rw [hiss2] at hok
      simp only [Except.ok.injEq, Prod.mk.injEq] at hok
      obtain ⟨hc2, hs2⟩ := hok
      refine ⟨?_, ?_, ?_⟩
      · rw [← hc2]
        intro heq
        have hserial := congrArg CertM.serial heq
        simp only [issueCertificate, issuedState] at hserial
        omega
      · rw [← hc2]
        rfl
      · rw [← hc2]
        rfl
  · intro s now host c s' hinv h
    exact leafForHost_valid hinv h

/-- An initial, empty, enabled MITM manager state. -/
def mitmState0 : MitmState := { enabled := true, cache := [], nextSerial := 0 }

/-- C3 witness: the cache law applied to the empty manager state for
`example.com` at time `0`. -/
theorem leaf_cache_ttl_witness :
    leafForHost mitmState0 0 (("example.com").data)
      = .ok (issueCertificate mitmState0.nextSerial 0,
             issuedState mitmState0 0 (("example.com").data)) :=
  (leaf_cache_ttl_and_validity.1 mitmState0 0 (("example.com").data) rfl
    (by simp [CacheInv, mitmState0])
    (by decide)
    (by intro ce hce; simp [mitmState0, lookupCache] at hce)).1

/-! ## C4 and C7: the filter chain -/

theorem applyRequestChain_first_reject {pre : List ProxyFilter} {f : ProxyFilter}
    {r : Request} {reason : Str}
    (hpre : ∀ g ∈ pre, g.applyRequest r = none)
    (hf : f.applyRequest r = some reason) :
    ∀ post, applyRequestChain (pre ++ f :: post) r = some reason := by
  induction pre with
  | nil =>
    intro post
    rw [List.nil_append]
    unfold applyRequestChain
    rw [hf]
  | cons g gs ih =>
    intro post
    rw [List.cons_append]
    unfold applyRequestChain
    rw [hpre g (by simp)]
    exact ih (fun g' hg' => hpre g' (by simp [hg'])) post

theorem applyResponseChain_first_reject {pre : List ProxyFilter} {f : ProxyFilter}
    {resp : Response} {reason : Str}
    (hpre : ∀ g ∈ pre, g.applyResponse resp = none)
    (hf : f.applyResponse resp = some reason) :
    ∀ post, applyResponseChain (pre ++ f :: post) resp = some reason := by
  induction pre with
  | nil =>
    intro post
    rw [List.nil_append]
    unfold applyResponseChain
    rw [hf]
  | cons g gs ih =>
    intro post
    rw [List.cons_append]
    unfold applyResponseChain
    rw [hpre g (by simp)]
    exact ih (fun g' hg' => hpre g' (by simp [hg'])) post

theorem handleHTTP_filterReject {cfg : HandlerCfg}
    {transport : Request → Except Str Response}
    {pf : Request → Option ProfileResult} {reqID : Str} {r outbound : Request}
    {targetHost reason : Str}
    (hclone : cloneRequest r = .ok (outbound, targetHost))
    (hallow : allowedHost cfg.allowHosts targetHost = true)
    (hfilter : applyRequestChain cfg.filters outbound = some reason) :
    handleHTTP cfg transport pf reqID r =
      { status := 403, clientBody := [], transportCalled := false
        records := [logErrorEntry reqID r targetHost (schemeOf outbound)
          ((("request filter rejected: ").data) ++ reason)] } := by
  unfold handleHTTP
  rw [hclone]
  dsimp only
  rw [hallow]
  simp only [Bool.not_true, Bool.false_eq_true, if_false]
  rw [hfilter]

/-- C4: filters run in configured order and the first rejection determines the
returned reason, independently of every filter placed after it (so no later
filter can influence the outcome), for requests and responses separately; and
when a request filter rejects, the forwarder responds 403, emits the record
carrying the rejection error, and never calls the transport. -/
theorem filter_chain_order_and_no_roundtrip :
    (∀ (pre post : List ProxyFilter) (f : ProxyFilter) (r : Request) (reason : Str),
      (∀ g ∈ pre, g.applyRequest r = none) → f.applyRequest r = some reason →
      applyRequestChain (pre ++ f :: post) r = some reason) ∧
    (∀ (pre post : List ProxyFilter) (f : ProxyFilter) (resp : Response) (reason : Str),
      (∀ g ∈ pre, g.applyResponse resp = none) → f.applyResponse resp = some reason →
      applyResponseChain (pre ++ f :: post) resp = some reason) ∧
    (∀ (cfg : HandlerCfg) (transport : Request → Except Str Response)
      (pf : Request → Option ProfileResult) (reqID : Str) (r outbound : Request)
      (targetHost reason : Str),
      cloneRequest r = .ok (outbound, targetHost) →
      allowedHost cfg.allowHosts targetHost = true →
      applyRequestChain cfg.filters outbound = some reason →
      (handleHTTP cfg transport pf reqID r).status = 403 ∧
      (handleHTTP cfg transport pf reqID r).transportCalled = false ∧
      (handleHTTP cfg transport pf reqID r).records
        = [logErrorEntry reqID r targetHost (schemeOf outbound)
            ((("request filter rejected: ").data) ++ reason)]) := by
  refine ⟨?_, ?_, ?_⟩
  · intro pre post f r reason hpre hf
    exact applyRequestChain_first_reject hpre hf post
  · intro pre post f resp reason hpre hf
    exact applyResponseChain_first_reject hpre hf post
  · intro cfg transport pf reqID r outbound targetHost reason hclone hallow hfilter
    rw [handleHTTP_filterReject hclone hallow hfilter]
    exact ⟨rfl, rfl, rfl⟩

/-- A concrete request carrying the default blocking header. -/
def c4Request : Request :=
  { method := ("GET").data
    url := some { scheme := ("http").data, host := ("example.com").data,
                  path := ('/' :: []) }
    host := ("example.com").data
    headers := [(("X-Audit-Block").data, [("block").data])]
    body := []
    contentLength := 0
    remoteAddr := ("127.0.0.1:5000").data }

/-- The default filter chain of `buildFilterChain`. -/
def c4Cfg : HandlerCfg :=
  { allowHosts := [('*' :: [])]
    excerptLimit := 0
    mitmEnabled := false
    mitmDisabled := []
    filters := [noopFilter,
      mkBlockHeaderFilter (("X-Audit-Block").data)
        [("1").data, ("true").data, ("block").data]] }

/-- The rejection reason produced by the header filter on `c4Request`. -/
def c4Reason : Str := ("blocked by header filter: X-Audit-Block=block").data

/-- C4 witness: a chain `[noop, header-block, noop]` rejects with the header
filter's reason, and the forwarder with the blocking chain answers 403 without
an upstream round trip. -/
theorem filter_chain_no_roundtrip_witness :
    applyRequestChain ((noopFilter :: []) ++
        (mkBlockHeaderFilter (("X-Audit-Block").data) [("block").data]) ::
        (noopFilter :: [])) c4Request = some c4Reason ∧
    (handleHTTP c4Cfg (fun _ => .error (("unreachable").data)) (fun _ => none)
        (("req-1").data) c4Request).status = 403 ∧
    (handleHTTP c4Cfg (fun _ => .error (("unreachable").data)) (fun _ => none)
        (("req-1").data) c4Request).transportCalled = false := by
  have h3 := filter_chain_order_and_no_roundtrip.2.2 c4Cfg
    (fun _ => .error (("unreachable").data)) (fun _ => none) (("req-1").data)
    c4Request c4Request (("example.com").data) c4Reason
    (by rfl) (by decide) (by decide)
  refine ⟨?_, h3.1, h3.2.1⟩
  exact filter_chain_order_and_no_roundtrip.1 (noopFilter :: []) (noopFilter :: [])
    (mkBlockHeaderFilter (("X-Audit-Block").data) [("block").data]) c4Request c4Reason
    (by intro g hg
        simp only [List.mem_cons, List.not_mem_nil, or_false] at hg
        subst hg
        rfl)
    (by decide)

/-- The rejection condition exactly as C7 states it: the request carries the
header with some value case-insensitively equal to one of the configured
values. -/
def carriesBlockedValue (r : Request) (header : Str) (values : List Str) : Bool :=
  (headerAllValues r.headers header).any
    (fun v => values.any (fun denied => equalFold v denied))

/-- A request whose blocking header carries two values, only the second of
which is denied. -/
def c7Request : Request :=
  { method := ("GET").data
    url := some { scheme := ("http").data, host := ("example.com").data,
                  path := ('/' :: []) }
    host := ("example.com").data
    headers := [(("X-Audit-Block").data, [("allow").data, ("block").data])]
    body := []
    contentLength := 0
    remoteAddr := ("127.0.0.1:5000").data }

/-- C7 (counterexample): a request carrying `X-Audit-Block: allow, block`
carries a denied value, yet the filter accepts it, because `Header.Get` only
consults the first value. -/
theorem blockheader_multivalue_counterexample :
    carriesBlockedValue c7Request (("X-Audit-Block").data) [("block").data] = true ∧
    blockHeaderApplyRequest (("X-Audit-Block").data) [("block").data] c7Request
      = none := by
  refine ⟨by decide, by decide⟩

/-- C7 (amended): the header-block filter rejects exactly when the header's
first value (the one `Header.Get` returns) is non-empty and equals one of the
configured values case-insensitively. -/
theorem blockheader_rejects_iff_first_value (header : Str) (values : List Str)
    (r : Request) :
    blockHeaderApplyRequest header values r ≠ none ↔
      (headerGet r.headers header ≠ [] ∧
        values.any (fun denied => equalFold (headerGet r.headers header) denied)
          = true) := by
  unfold blockHeaderApplyRequest
  by_cases h1 : headerGet r.headers header = []
  · simp [h1]
  · by_cases h2 : values.any (fun denied => equalFold (headerGet r.headers header) denied) = true
    · simp [h1, h2]
    · simp [h1, h2]

/-! ## C5 and C10: the allow-list -/

/-- The host part the allow-list compares against: the target with its port
stripped (a failed split leaves the empty string). -/
def hostPartOf (target : Str) : Str :=
  if target.any (· == ':') then
    (match goSplitHostPort target with
     | some (h, _) => h
     | none => [])
  else target

theorem allowedHost_eq_hostPart (allowHosts : List Str) (target : Str) :
    allowedHost allowHosts target =
      if target = [] then false
      else if allowHosts = [] then true
      else allowHosts.any (fun a => a == ('*' :: []) || equalFold a (hostPartOf target)) := by
  unfold allowedHost hostPartOf
  by_cases h1 : target = []
  · simp [h1]
  · rw [if_neg h1]

theorem handleHTTP_blockedHost {cfg : HandlerCfg}
    {transport : Request → Except Str Response}
    {pf : Request → Option ProfileResult} {reqID : Str} {r outbound : Request}
    {targetHost : Str}
    (hclone : cloneRequest r = .ok (outbound, targetHost))
    (hallow : allowedHost cfg.allowHosts targetHost = false) :
    handleHTTP cfg transport pf reqID r =
      { status := 403, clientBody := [], transportCalled := false
        records := [logErrorEntry reqID r targetHost (("http").data)
          ((("blocked host: ").data) ++ targetHost)] } := by
  unfold handleHTTP
  rw [hclone]
  dsimp only
  rw [hallow]
  rfl

/-- C5 (counterexample): the claim says an allow-list of `["*"]` admits any
target, but the empty target is rejected even then. -/
theorem star_allowlist_empty_target_counterexample :
    allowedHost [('*' :: [])] [] = false := by decide

/-- C5 (amended): `["*"]` admits any non-empty target; a non-empty allow-list
without `*` admits exactly the non-empty targets whose host part (port
stripped) case-insensitively matches a listed host, and the forwarder answers
a rejected target with 403 and a record whose error is
`blocked host: <target>`; an empty allow-list admits every non-empty
target. -/
theorem allowlist_semantics_amended :
    (∀ target : Str, target ≠ [] → allowedHost [('*' :: [])] target = true) ∧
    (∀ (l : List Str) (target : Str), l ≠ [] → ('*' :: []) ∉ l →
      (allowedHost l target = true ↔
        target ≠ [] ∧ l.any (fun a => equalFold a (hostPartOf target)) = true)) ∧
    (∀ target : Str, target ≠ [] → allowedHost [] target = true) ∧
    (∀ (cfg : HandlerCfg) (transport : Request → Except Str Response)
      (pf : Request → Option ProfileResult) (reqID : Str) (r outbound : Request)
      (targetHost : Str),
      cloneRequest r = .ok (outbound, targetHost) →
      allowedHost cfg.allowHosts targetHost = false →
      (handleHTTP cfg transport pf reqID r).status = 403 ∧
      (handleHTTP cfg transport pf reqID r).records
        = [logErrorEntry reqID r targetHost (("http").data)
            ((("blocked host: ").data) ++ targetHost)]) := by
  refine ⟨?_, ?_, ?_, ?_⟩
  · intro target ht
    rw [allowedHost_eq_hostPart, if_neg ht, if_neg (by simp)]
    simp
  · intro l target hl hstar
    rw [allowedHost_eq_hostPart]
    by_cases ht : target = []
    · simp [ht]
    · rw [if_neg ht, if_neg hl]
      constructor
      · intro hany
        refine ⟨ht, ?_⟩
        rw [List.any_eq_true] at hany ⊢
        obtain ⟨a, ha, hp⟩ := hany
        rcases Bool.or_eq_true_iff.mp hp with hp1 | hp2
        · have hae : a = ('*' :: []) := by simpa using hp1
          exact absurd (hae ▸ ha) hstar
        · exact ⟨a, ha, hp2⟩
      · intro ⟨_, hany⟩
        rw [List.any_eq_true] at hany ⊢
        obtain ⟨a, ha, hp⟩ := hany
        exact ⟨a, ha, Bool.or_eq_true_iff.mpr (Or.inr hp)⟩
  · intro target ht
    rw [allowedHost_eq_hostPart, if_neg ht]
    simp
  · intro cfg transport pf reqID r outbound targetHost hclone hallow
    rw [handleHTTP_blockedHost hclone hallow]
    exact ⟨rfl, rfl⟩

/-- A request whose target is not on the allow-list. -/
def c5Request : Request :=
  { method := ("GET").data
    url := some { scheme := ("http").data, host := ("blocked.test").data,
                  path := ('/' :: []) }
    host := ("blocked.test").data
    headers := []
    body := []
    contentLength := 0
    remoteAddr := ("127.0.0.1:5000").data }

/-- A handler restricted to `allowed.test`. -/
def c5Cfg : HandlerCfg :=
  { allowHosts := [("allowed.test").data]
    excerptLimit := 0
    mitmEnabled := false
    mitmDisabled := []
    filters := [noopFilter] }

/-- C5 witness: the amended allow-list semantics evaluated at concrete
inputs — `["*"]` admits `x`, an explicit list admits its host case-insensitively
with the port stripped, and the forwarder answers `blocked.test` with 403. -/
theorem allowlist_semantics_witness :
    allowedHost [('*' :: [])] (('x') :: []) = true ∧
    allowedHost [("allowed.test").data] (("Allowed.TEST:443").data) = true ∧
    allowedHost [] (('y') :: []) = true ∧
    (handleHTTP c5Cfg (fun _ => .error (("unreachable").data)) (fun _ => none)
        (("req-1").data) c5Request).status = 403 := by
  refine ⟨?_, ?_, ?_, ?_⟩
  · exact allowlist_semantics_amended.1 _ (by decide)
  · exact (allowlist_semantics_amended.2.1 [("allowed.test").data]
      (("Allowed.TEST:443").data) (by decide) (by decide)).mpr ⟨by decide, by decide⟩
  · exact allowlist_semantics_amended.2.2.1 _ (by decide)
  · exact (allowlist_semantics_amended.2.2.2 c5Cfg
      (fun _ => .error (("unreachable").data)) (fun _ => none) (("req-1").data)
      c5Request c5Request (("blocked.test").data) (by rfl) (by decide)).1

theorem handleConnect_blocked {cfg : HandlerCfg} {o : ConnectOracle} {reqID : Str}
    {r : Request} (h : allowedHost cfg.allowHosts r.host = false) :
    handleConnect cfg o reqID r =
      { status := some 403
        records := [logErrorEntry reqID r r.host (("connect").data)
          ((("blocked host: ").data) ++ r.host)] } := by
  unfold handleConnect
  rw [h]
  rfl

/-- C10: a request whose extracted target host is empty is rejected as a
blocked host with 403 by both handlers, whatever the allow-list (including an
empty list or `["*"]`). -/
theorem empty_target_always_blocked :
    (∀ allowHosts : List Str, allowedHost allowHosts [] = false) ∧
    (∀ (cfg : HandlerCfg) (transport : Request → Except Str Response)
      (pf : Request → Option ProfileResult) (reqID : Str) (r outbound : Request),
      cloneRequest r = .ok (outbound, []) →
      (handleHTTP cfg transport pf reqID r).status = 403 ∧
      (handleHTTP cfg transport pf reqID r).records
        = [logErrorEntry reqID r [] (("http").data)
            ((("blocked host: ").data) ++ [])]) ∧
    (∀ (cfg : HandlerCfg) (o : ConnectOracle) (reqID : Str) (r : Request),
      r.host = [] →
      (handleConnect cfg o reqID r).status = some 403 ∧
      (handleConnect cfg o reqID r).records
        = [logErrorEntry reqID r r.host (("connect").data)
            ((("blocked host: ").data) ++ r.host)]) := by
  have hempty : ∀ allowHosts : List Str, allowedHost allowHosts [] = false := by
    intro allowHosts
    unfold allowedHost
    rw [if_pos rfl]
  refine ⟨hempty, ?_, ?_⟩
  · intro cfg transport pf reqID r outbound hclone
    rw [handleHTTP_blockedHost hclone (hempty cfg.allowHosts)]
    exact ⟨rfl, rfl⟩
  · intro cfg o reqID r hhost
    rw [handleConnect_blocked (by rw [hhost]; exact hempty cfg.allowHosts)]
    exact ⟨rfl, rfl⟩

/-- A request with no extractable host at all. -/
def c10Request : Request :=
  { method := ("GET").data
    url := some { scheme := ("http").data, host := [], path := ('/' :: []) }
    host := []
    headers := []
    body := []
    contentLength := 0
    remoteAddr := ("127.0.0.1:5000").data }

/-- The oracle for a CONNECT attempt whose environment never fails. -/
def c10Oracle : ConnectOracle :=
  { hijackOk := true, flushOk := true, dialErr := none, tunnelErr := none
    mitmErr := none }

/-- C10 witness: both handlers applied to the empty-host request under the
most permissive configurations still answer 403. -/
theorem empty_target_always_blocked_witness :
    (handleHTTP c4Cfg (fun _ => .error (("unreachable").data)) (fun _ => none)
        (("req-1").data) c10Request).status = 403 ∧
    (handleConnect c4Cfg c10Oracle (("req-2").data) c10Request).status
      = some 403 := by
  refine ⟨?_, ?_⟩
  · exact (empty_target_always_blocked.2.1 c4Cfg
      (fun _ => .error (("unreachable").data)) (fun _ => none) (("req-1").data)
      c10Request c10Request (by rfl)).1
  · exact (empty_target_always_blocked.2.2 c4Cfg c10Oracle (("req-2").data)
      c10Request (by rfl)).1

/-! ## C6: content-length recording on the two paths -/

theorem handleHTTP_success {cfg : HandlerCfg}
    {transport : Request → Except Str Response}
    {pf : Request → Option ProfileResult} {reqID : Str} {r outbound : Request}
    {targetHost : Str} {resp : Response}
    (hclone : cloneRequest r = .ok (outbound, targetHost))
    (hallow : allowedHost cfg.allowHosts targetHost = true)
    (hreqf : applyRequestChain cfg.filters outbound = none)
    (htr : transport outbound = .ok resp)
    (hrespf : applyResponseChain cfg.filters resp = none) :
    (handleHTTP cfg transport pf reqID r).status = resp.statusCode ∧
    (handleHTTP cfg transport pf reqID r).clientBody = resp.body.flatten ∧
    (handleHTTP cfg transport pf reqID r).records.map
        (fun e => e.response.map HTTPResponseRec.contentLength)
      = [some (if resp.contentLength < 0 then
          ((resp.body.flatten.length : Int)) else resp.contentLength)] := by
  unfold handleHTTP
  rw [hclone]
  dsimp only
  rw [hallow]
  simp only [Bool.not_true, Bool.false_eq_true, if_false]
  rw [hreqf]
  dsimp only
  rw [htr]
  dsimp only
  rw [hrespf]
  refine ⟨rfl, rfl, ?_⟩
  rfl

theorem processMitm_success {cfg : HandlerCfg}
    {transport : Request → Except Str Response}
    {pf : Request → Option ProfileResult} {reqID : Str} {inbound0 outbound : Request}
    {targetHost th2 : Str} {resp : Response}
    (hclone : cloneRequest (mitmNormalize inbound0 targetHost) = .ok (outbound, th2))
    (hreqf : applyRequestChain cfg.filters outbound = none)
    (htr : transport outbound = .ok resp)
    (hrespf : applyResponseChain cfg.filters resp = none) :
    (processMitmRequest cfg transport pf reqID inbound0 targetHost).status
        = resp.statusCode ∧
    (processMitmRequest cfg transport pf reqID inbound0 targetHost).clientBody
        = resp.body.flatten ∧
    (processMitmRequest cfg transport pf reqID inbound0 targetHost).records.map
        (fun e => e.response.map HTTPResponseRec.contentLength)
      = [some (if resp.contentLength < 0 then
          (if 0 < cfg.excerptLimit then
            (((teeRunAll resp.body (mkBuffer cfg.excerptLimit)).2.data.length : Int))
           else resp.contentLength)
          else resp.contentLength)] := by
  unfold processMitmRequest
  dsimp only
  rw [hclone]
  dsimp only
  rw [hreqf]
  dsimp only
  rw [htr]
  dsimp only
  rw [hrespf]
  refine ⟨rfl, rfl, ?_⟩
  simp only [List.map_cons, List.map_nil, Option.map_some]
  by_cases hcl : resp.contentLength < 0
  · by_cases hex : 0 < cfg.excerptLimit
    · simp [newHTTPResponse, hcl, hex]
    · simp [newHTTPResponse, hcl, hex]
  · by_cases hex : 0 < cfg.excerptLimit
    · simp [newHTTPResponse, hcl, hex]
    · simp [newHTTPResponse, hcl, hex]

/-- An upstream response with an unknown (negative) declared content length
and the five-byte body `hello`. -/
def c6Resp : Response :=
  { statusCode := 200
    headers := []
    body := [(104 :: 101 :: 108 :: 108 :: 111 :: [])]
    contentLength := -1 }

/-- A permissive handler with excerpt limit 2. -/
def c6Cfg : HandlerCfg :=
  { allowHosts := [('*' :: [])]
    excerptLimit := 2
    mitmEnabled := true
    mitmDisabled := []
    filters := [noopFilter] }

/-- A plain request with no body. -/
def c6Request : Request :=
  { method := ("GET").data
    url := some { scheme := ("http").data, host := ("example.com").data,
                  path := ('/' :: []) }
    host := ("example.com").data
    headers := []
    body := []
    contentLength := 0
    remoteAddr := ("127.0.0.1:5000").data }

/-- The transport oracle that always answers `c6Resp`. -/
def c6Transport : Request → Except Str Response := fun _ => .ok c6Resp

/-- C6 (counterexample): with excerpt limit 2 and an unknown content length,
the plain path records the 5 bytes actually streamed, but the MITM path
streams all 5 bytes while recording only 2 (the excerpt-buffer length) — so
the record does not equal the bytes streamed on the MITM path. -/
theorem mitm_content_length_counterexample :
    (handleHTTP c6Cfg c6Transport (fun _ => none) (("req-1").data)
        c6Request).records.map (fun e => e.response.map HTTPResponseRec.contentLength)
      = [some 5] ∧
    (processMitmRequest c6Cfg c6Transport (fun _ => none) (("req-2").data)
        c6Request (("example.com:443").data)).clientBody.length = 5 ∧
    (processMitmRequest c6Cfg c6Transport (fun _ => none) (("req-2").data)
        c6Request (("example.com:443").data)).records.map
        (fun e => e.response.map HTTPResponseRec.contentLength)
      = [some 2] ∧
    (2 : Int) ≠ 5 := by
  refine ⟨by decide, by decide, by decide, by decide⟩

/-- C6 (amended): with an unknown (negative) declared content length, the
plain HTTP path records exactly the number of body bytes streamed to the
client; the MITM path streams the full body but records the excerpt-buffer
length `min(L, N)` when capture is enabled, and leaves the negative declared
value in the record when capture is disabled. -/
theorem content_length_recording_amended :
    (∀ (cfg : HandlerCfg) (transport : Request → Except Str Response)
      (pf : Request → Option ProfileResult) (reqID : Str) (r outbound : Request)
      (targetHost : Str) (resp : Response),
      cloneRequest r = .ok (outbound, targetHost) →
      allowedHost cfg.allowHosts targetHost = true →
      applyRequestChain cfg.filters outbound = none →
      transport outbound = .ok resp →
      applyResponseChain cfg.filters resp = none →
      resp.contentLength < 0 →
      (handleHTTP cfg transport pf reqID r).clientBody = resp.body.flatten ∧
      (handleHTTP cfg transport pf reqID r).records.map
          (fun e => e.response.map HTTPResponseRec.contentLength)
        = [some ((resp.body.flatten.length : Int))]) ∧
    (∀ (cfg : HandlerCfg) (transport : Request → Except Str Response)
      (pf : Request → Option ProfileResult) (reqID : Str)
      (inbound0 outbound : Request) (targetHost th2 : Str) (resp : Response),
      cloneRequest (mitmNormalize inbound0 targetHost) = .ok (outbound, th2) →
      applyRequestChain cfg.filters outbound = none →
      transport outbound = .ok resp →
      applyResponseChain cfg.filters resp = none →
      resp.contentLength < 0 →
      (processMitmRequest cfg transport pf reqID inbound0 targetHost).clientBody
          = resp.body.flatten ∧
      (0 < cfg.excerptLimit →
        (processMitmRequest cfg transport pf reqID inbound0 targetHost).records.map
            (fun e => e.response.map HTTPResponseRec.contentLength)
          = [some ((min cfg.excerptLimit.toNat resp.body.flatten.length : Nat) : Int)]) ∧
      (cfg.excerptLimit ≤ 0 →
        (processMitmRequest cfg transport pf reqID inbound0 targetHost).records.map
            (fun e => e.response.map HTTPResponseRec.contentLength)
          = [some resp.contentLength])) := by
  constructor
  · intro cfg transport pf reqID r outbound targetHost resp hclone hallow hreqf htr hrespf hcl
    obtain ⟨-, h2, h3⟩ := @handleHTTP_success cfg transport pf reqID r outbound
      targetHost resp hclone hallow hreqf htr hrespf
    refine ⟨h2, ?_⟩
    rw [h3, if_pos hcl]
  · intro cfg transport pf reqID inbound0 outbound targetHost th2 resp hclone hreqf htr hrespf hcl
    obtain ⟨-, h2, h3⟩ := @processMitm_success cfg transport pf reqID inbound0
      outbound targetHost th2 resp hclone hreqf htr hrespf
    refine ⟨h2, ?_, ?_⟩
    · intro hex
      rw [h3, if_pos hcl, if_pos hex]
      have hLnn : (0 : Int) ≤ cfg.excerptLimit := le_of_lt hex
      have hLcast : ((cfg.excerptLimit.toNat : Int)) = cfg.excerptLimit :=
        Int.toNat_of_nonneg hLnn
      have hLpos : 0 < cfg.excerptLimit.toNat := by omega
      have hbuf := teeRunAll_pos resp.body [] cfg.excerptLimit.toNat hLpos (by simp)
      rw [show mkBuffer cfg.excerptLimit = mkBuffer ((cfg.excerptLimit.toNat : Int))
        from by rw [hLcast]]
      simp only [mkBuffer]
      rw [hbuf]
      simp [List.length_take]
    · intro hex
      rw [h3, if_pos hcl, if_neg (by omega)]

/-- C6 witness: the amended recording law evaluated on the concrete `hello`
response through both paths. -/
theorem content_length_recording_witness :
    (handleHTTP c6Cfg c6Transport (fun _ => none) (("req-3").data)
        c6Request).records.map (fun e => e.response.map HTTPResponseRec.contentLength)
      = [some ((c6Resp.body.flatten.length : Int))] ∧
    (processMitmRequest c6Cfg c6Transport (fun _ => none) (("req-4").data)
        c6Request (("example.com:443").data)).clientBody = c6Resp.body.flatten := by
  refine ⟨?_, ?_⟩
  · exact (content_length_recording_amended.1 c6Cfg c6Transport (fun _ => none)
      (("req-3").data) c6Request c6Request (("example.com").data) c6Resp
      (by rfl) (by decide) (by rfl) (by rfl) (by rfl) (by decide)).2
  · exact (content_length_recording_amended.2 c6Cfg c6Transport (fun _ => none)
      (("req-4").data) c6Request (mitmNormalize c6Request (("example.com:443").data))
      (("example.com:443").data) (("example.com:443").data) c6Resp
      (by rfl) (by rfl) (by rfl) (by rfl) (by decide)).1

/-! ## C9: one record per request, monotone unique identifiers -/

theorem handleHTTP_one_record (cfg : HandlerCfg)
    (transport : Request → Except Str Response)
    (pf : Request → Option ProfileResult) (reqID : Str) (r : Request) :
    (handleHTTP cfg transport pf reqID r).records.length = 1 := by
  unfold handleHTTP
  cases hclone : cloneRequest r with
  | error e => rfl
  | ok p =>
    obtain ⟨outbound, targetHost⟩ := p
    dsimp only
    by_cases hallow : allowedHost cfg.allowHosts targetHost = true
    · rw [hallow]
      cases hreqf : applyRequestChain cfg.filters outbound with
      | some reason => rfl
      | none =>
        cases htr : transport outbound with
        | error e => rfl
        | ok resp =>
          dsimp only
          cases hrespf : applyResponseChain cfg.filters resp with
          | some reason => rfl
          | none => rfl
    · rw [show allowedHost cfg.allowHosts targetHost = false from by simpa using hallow]
      rfl

theorem digitChar_inj_lt10 (x y : Nat) (hx : x < 10) (hy : y < 10)
    (h : Nat.digitChar x = Nat.digitChar y) : x = y := by
  have hfin : ∀ a b : Fin 10, Nat.digitChar a.val = Nat.digitChar b.val → a = b := by
    decide
  exact congrArg Fin.val (hfin ⟨x, hx⟩ ⟨y, hy⟩ h)

theorem map_digitChar_inj (l1 : List Nat) : ∀ (l2 : List Nat),
    (∀ x ∈ l1, x < 10) → (∀ x ∈ l2, x < 10) →
    l1.map Nat.digitChar = l2.map Nat.digitChar → l1 = l2 := by
  induction l1 with
  | nil =>
    intro l2 _ _ h
    cases l2 with
    | nil => rfl
    | cons b bs => simp at h
  | cons a as ih =>
    intro l2 h1 h2 h
    cases l2 with
    | nil => simp at h
    | cons b bs =>
      simp only [List.map_cons, List.cons.injEq] at h
      obtain ⟨hab, hrest⟩ := h
      have ha := digitChar_inj_lt10 a b (h1 a (by simp)) (h2 b (by simp)) hab
      rw [ha, ih bs (fun x hx => h1 x (List.mem_cons_of_mem _ hx))
        (fun x hx => h2 x (List.mem_cons_of_mem _ hx)) hrest]

theorem natChars_inj_pos {a b : Nat} (ha : 0 < a) (hb : 0 < b)
    (h : natChars a = natChars b) : a = b := by
  unfold natChars at h
  rw [if_neg (by omega), if_neg (by omega)] at h
  have h2 := List.reverse_injective h
  have h3 := map_digitChar_inj _ _
    (fun x hx => Nat.digits_lt_base (by norm_num) hx)
    (fun x hx => Nat.digits_lt_base (by norm_num) hx) h2
  have h4 := congrArg (Nat.ofDigits 10) h3
  rw [Nat.ofDigits_digits, Nat.ofDigits_digits] at h4
  exact_mod_cast h4

theorem reqIdOf_inj_pos {a b : Nat} (ha : 0 < a) (hb : 0 < b) (hne : a ≠ b) :
    reqIdOf a ≠ reqIdOf b := by
  intro h
  unfold reqIdOf at h
  exact hne (natChars_inj_pos ha hb (List.append_cancel_left h))

theorem uint64Mod_pos : 0 < uint64Mod := by
  unfold uint64Mod
  norm_num

theorem nextID_wrap : (uint64Mod - 1 + 1) % uint64Mod = 0 := by
  have h1 : uint64Mod - 1 + 1 = uint64Mod := by
    have := uint64Mod_pos
    omega
  rw [h1, Nat.mod_self]

/-- C9 (counterexample): the `uint64` sequence counter wraps: advancing it
from `2^64 - 1` yields `0`, so the counter is not monotonically increasing as
the claim states, and after the wrap the run re-enters its initial state and
repeats identifiers (`req-0`, then `req-1` again). -/
theorem request_counter_wraps_counterexample :
    (nextID (uint64Mod - 1)).1 = 0 ∧
    ¬ (uint64Mod - 1 < (nextID (uint64Mod - 1)).1) ∧
    (nextID (uint64Mod - 1)).2 = reqIdOf 0 ∧
    (nextID ((nextID (uint64Mod - 1)).1)).2 = (nextID 0).2 := by
  refine ⟨?_, ?_, ?_, ?_⟩
  · unfold nextID
    rw [nextID_wrap]
  · unfold nextID
    rw [nextID_wrap]
    exact Nat.not_lt_zero _
  · unfold nextID
    rw [nextID_wrap]
  · unfold nextID
    rw [nextID_wrap]

/-- C9 (amended): every request handled by the forwarder emits exactly one
audit record on every terminal path; the `uint64` sequence counter strictly
increases on each `nextID` call until it wraps at `2^64`; the rendered
identifiers are injective on positive values; hence the identifiers of any
run of fewer than `2^64` requests are pairwise distinct.  (A run that exceeds
`2^64` requests would wrap the counter and repeat identifiers, per the
counterexample.) -/
theorem one_record_and_unique_ids_amended :
    (∀ (cfg : HandlerCfg) (transport : Request → Except Str Response)
      (pf : Request → Option ProfileResult) (reqID : Str) (r : Request),
      (handleHTTP cfg transport pf reqID r).records.length = 1) ∧
    (∀ seq : Nat, seq + 1 < uint64Mod →
      seq < (nextID seq).1 ∧ (nextID seq).2 = reqIdOf (nextID seq).1) ∧
    (∀ a b : Nat, 0 < a → 0 < b → a ≠ b → reqIdOf a ≠ reqIdOf b) ∧
    (∀ k : Nat, k < uint64Mod →
      ((List.range k).map (fun i => reqIdOf ((i + 1) % uint64Mod))).Nodup) := by
  refine ⟨handleHTTP_one_record, ?_, ?_, ?_⟩
  · intro seq hseq
    have hmod : (seq + 1) % uint64Mod = seq + 1 := Nat.mod_eq_of_lt hseq
    constructor
    · unfold nextID
      rw [hmod]
      exact Nat.lt_succ_self seq
    · rfl
  · intro a b ha hb hne
    exact reqIdOf_inj_pos ha hb hne
  · intro k hk
    have hsame : (List.range k).map (fun i => reqIdOf ((i + 1) % uint64Mod))
        = (List.range k).map (fun i => reqIdOf (i + 1)) := by
      apply List.map_congr_left
      intro i hi
      have hik : i < k := List.mem_range.mp hi
      rw [Nat.mod_eq_of_lt (by omega)]
    rw [hsame]
    apply List.Nodup.map_on ?_ (List.nodup_range k)
    intro x _ y _ hxy
    by_contra hne
    exact reqIdOf_inj_pos (Nat.succ_pos x) (Nat.succ_pos y) (by omega) hxy

/-- C9 witness: one record on a concrete blocked request, a concrete
pre-wrap counter step that increases, and two concrete identifiers that are
distinct. -/
theorem one_record_and_unique_ids_amended_witness :
    (handleHTTP c5Cfg (fun _ => .error (("unreachable").data)) (fun _ => none)
        (("req-7").data) c5Request).records.length = 1 ∧
    5 < (nextID 5).1 ∧
    reqIdOf 1 ≠ reqIdOf 2 := by
  refine ⟨one_record_and_unique_ids_amended.1 c5Cfg _ _ _ c5Request, ?_, ?_⟩
  · exact (one_record_and_unique_ids_amended.2.1 5 (by decide)).1
  · exact one_record_and_unique_ids_amended.2.2.1 1 2 (by decide) (by decide) (by decide)
